import Mathlib

/-!
Verification of the Emerald Hill (EH) compression engine driver
(drivers/soc/google/eh/eh_main.c): a shallow embedding of the compression
descriptor FIFO, the completion reaper and halt recovery, the synchronous
decompression path, and suspend/resume, together with proofs of the ring
invariants and completion-delivery properties.

Index arithmetic.  The driver stores fifo_index_mask = fifo_size - 1 and
fifo_color_mask = 2 * fifo_size - 1 and combines unsigned C arithmetic with
these masks.  For a power-of-two fifo_size (enforced by eh_init, and fixed to
256 by eh_default_fifo_size), x & fifo_index_mask = x % fifo_size and
x & fifo_color_mask = x % (2 * fifo_size); for a, b < 2 * fifo_size the
unsigned expression (b - a) & fifo_color_mask equals
(b + 2 * fifo_size - a) % (2 * fifo_size).  The embedding uses the explicit
modular forms throughout.
-/

namespace EH

/-- Compression descriptor status.  Modelled from the spec: the numeric
register encodings are declared in the eh_internal.h header, which is not part
of the sources here; only the distinction between the eight states matters to
the driver logic (spec section 3 descriptor lifecycle). -/
inductive CompStatus
  | idle
  | pending
  | copied
  | compressed
  | zero
  | abort
  | errorContinue
  | errorHalted
  deriving DecidableEq, Repr

def PAGE_SIZE : Nat := 4096

/-- Error numbers used by the driver (linux errno values). -/
def EBUSY : Int := 16

def ETIME : Int := 62

def EIO_code : Int := 5

def EH_MAX_FIFO_SIZE : Nat := 32768

/-- (b - a) & fifo_color_mask of the source, for a, b < 2 * N: the number of
ring positions from a forward to b in the doubled (color) index space. -/
def colorDist (N a b : Nat) : Nat := (b + 2 * N - a) % (2 * N)

/-- One hardware compression descriptor, restricted to the fields the
completion path reads: status, compr_len and buf_sel
(struct eh_compress_desc). -/
structure EhCompressDesc where
  status : CompStatus
  compr_len : Nat
  buf_sel : Nat
  deriving DecidableEq, Repr

/-- Arguments of one invocation of eh_dev->comp_callback.  data models the
compr_data pointer: none is NULL, some (i, off) is
eh_dev->compr_buffers[i] + off. -/
structure CallbackArgs where
  status : CompStatus
  data : Option (Nat × Nat)
  size : Nat
  token : Nat
  deriving DecidableEq, Repr

/-- Result of eh_process_completed_descriptor (eh_main.c:278-372): the callback
arguments, the int return value (true = 1, returned only for ERROR_HALTED),
and whether eh_dump_regs was called (the IDLE / PENDING consistency case). -/
structure ProcOut where
  args : CallbackArgs
  ret : Bool
  dumped : Bool
  deriving DecidableEq, Repr

/-- eh_main.c:278 eh_process_completed_descriptor.  The switch on the
descriptor status: COPIED / COMPRESSED pass the compression buffer (offset by
buf_sel), every other case leaves compr_data NULL; compr_size is always
desc->compr_len; ret is set to 1 only for ERROR_HALTED; the IDLE / PENDING
case dumps registers and warns but leaves ret at 0.  The callback is invoked
in every case.  (The caller resets the descriptor to IDLE and decrements
nr_request; that part is modelled by the loop and machine steps below.) -/
def eh_process_completed_descriptor (fifo_index : Nat) (desc : EhCompressDesc)
    (priv : Nat) : ProcOut :=
  let offset := if desc.buf_sel = 2 then PAGE_SIZE / 2 else 0
  match desc.status with
  | .copied =>
      ⟨⟨.copied, some (fifo_index, offset), desc.compr_len, priv⟩, false, false⟩
  | .compressed =>
      ⟨⟨.compressed, some (fifo_index, offset), desc.compr_len, priv⟩, false, false⟩
  | .zero => ⟨⟨.zero, none, desc.compr_len, priv⟩, false, false⟩
  | .abort => ⟨⟨.abort, none, desc.compr_len, priv⟩, false, false⟩
  | .errorContinue => ⟨⟨.errorContinue, none, desc.compr_len, priv⟩, false, false⟩
  | .errorHalted => ⟨⟨.errorHalted, none, desc.compr_len, priv⟩, true, false⟩
  | .idle => ⟨⟨.idle, none, desc.compr_len, priv⟩, false, true⟩
  | .pending => ⟨⟨.pending, none, desc.compr_len, priv⟩, false, true⟩

/-- The per-slot arrays owned by the ring, indexed by masked index:
the descriptor fifo and the parallel completions array (priv tokens,
0 modelling NULL). -/
structure RingArrays where
  fifo : Nat → EhCompressDesc
  completions : Nat → Nat

/-- The per-slot cleanup done while reaping slot index: descriptor status back
to IDLE (eh_main.c:367), cmpl->priv = NULL (eh_main.c:386). -/
def reapRingSlot (r : RingArrays) (index : Nat) : RingArrays :=
  { fifo := fun i => if i = index then { r.fifo index with status := CompStatus.idle }
      else r.fifo i,
    completions := fun i => if i = index then 0 else r.completions i }

/-- Result of the eh_process_completions loop: callbacks delivered in order,
the ring arrays afterwards, the new software complete_index, and the int
return value (true = 1). -/
structure ProcessResult where
  outs : List ProcOut
  ring : RingArrays
  complete_index : Nat
  ret : Bool

/-- The body of the for loop of eh_main.c:374 eh_process_completions, with the
iteration count made explicit: the source iterates i from start, wrapping by
fifo_color_mask, until i = end, which is exactly colorDist N start end
iterations, breaking early when eh_process_completed_descriptor returns
nonzero.  complete_index advances by one per processed slot. -/
def processSlots (N : Nat) : RingArrays → Nat → Nat → ProcessResult
  | r, i, 0 => ⟨[], r, i, false⟩
  | r, i, Nat.succ n =>
    let index := i % N
    let out := eh_process_completed_descriptor index (r.fifo index) (r.completions index)
    let r' := reapRingSlot r index
    if out.ret then ⟨[out], r', (i + 1) % (2 * N), true⟩
    else
      let rest := processSlots N r' ((i + 1) % (2 * N)) n
      ⟨out :: rest.outs, rest.ring, rest.complete_index, rest.ret⟩

/-- eh_main.c:374 eh_process_completions, from the local complete_index start
to the device-reported index e (both in color space). -/
def eh_process_completions (N : Nat) (r : RingArrays) (start e : Nat) : ProcessResult :=
  processSlots N r start (colorDist N start e)

/-- __ffs: index of the lowest set bit (undefined at 0 in C; 0 here). -/
def ffs : Nat → Nat
  | 0 => 0
  | n + 1 => if (n + 1) % 2 = 0 then ffs ((n + 1) / 2) + 1 else 0
  decreasing_by exact Nat.div_lt_self (Nat.succ_pos n) (by omega)

/-- eh_main.c:747 eh_setup_dcmd, source-buffer part: alignment =
1UL << __ffs(compr_data); if alignment < 64 or compr_size > alignment the
source is copied into the per-slot decompression bounce buffer and the
programmed alignment becomes PAGE_SIZE; otherwise the buffer is referenced in
place with alignment capped at PAGE_SIZE.  Returns (copied?, programmed
alignment). -/
def eh_setup_dcmd (compr_data compr_size : Nat) : Bool × Nat :=
  let alignment := 2 ^ ffs compr_data
  if alignment < 64 ∨ compr_size > alignment then
    (true, PAGE_SIZE)
  else
    (false, if PAGE_SIZE < alignment then PAGE_SIZE else alignment)

/-- Decompression command status (EH_DCMD_*).  Modelled from the spec: the
numeric encodings are in the absent eh_internal.h; the polling logic only
distinguishes PENDING, DECOMPRESSED and failure codes. -/
inductive DcmdStatus
  | pending
  | decompressed
  | failCode (c : Nat)
  deriving DecidableEq, Repr

/-- The do/while polling loop of eh_main.c:910-919: each iteration first checks
the timeout deadline and then reads the status register; fuel is the number of
reads that fit before jiffies passes the deadline; read t is the status
observed by the read at iteration t.  none models the timeout exit. -/
def pollStatus (read : Nat → DcmdStatus) : Nat → Nat → Option DcmdStatus
  | 0, _ => none
  | Nat.succ fuel, t =>
    let status := read t
    if status = DcmdStatus.pending then pollStatus read fuel (t + 1) else some status

inductive DecompressOutcome
  | suspendedBusy
  | slotBusy
  | timedOut
  | hwError
  | ok
  deriving DecidableEq, Repr

/-- Observable result of eh_decompress_page: the int return value, which
branch produced it, and whether eh_update_latency ran. -/
structure DecompressOut where
  ret : Int
  outcome : DecompressOutcome
  latency_recorded : Bool
  deriving DecidableEq, Repr

/-- eh_main.c:875 eh_decompress_page: fail -EBUSY when suspended, fail -EBUSY
when the chosen decompression slot is busy, otherwise program the command and
poll; timeout gives -ETIME (before any latency update), a completed poll
records latency and returns 0 for EH_DCMD_DECOMPRESSED or -EIO for any other
final status. -/
def eh_decompress_page (suspended busy : Bool) (read : Nat → DcmdStatus)
    (fuel : Nat) : DecompressOut :=
  if suspended then ⟨-EBUSY, .suspendedBusy, false⟩
  else if busy then ⟨-EBUSY, .slotBusy, false⟩
  else
    match pollStatus read fuel 0 with
    | none => ⟨-ETIME, .timedOut, false⟩
    | some status =>
      if status = DcmdStatus.decompressed then ⟨0, .ok, true⟩
      else ⟨-EIO_code, .hwError, true⟩

/-! ## The device state machine

An interleaved-atomic model of the driver together with the device-side
completion behaviour: producer threads calling eh_compress_page, the device
completing pending descriptors in ring order, the eh_comp_thread reaper
processing one completed slot at a time, halt recovery, and suspend / resume.
submitted and delivered are ghost traces of the priv tokens handed to
eh_compress_page and of the priv tokens passed to comp_callback. -/

/-- The fields of struct eh_device that the core logic reads and writes,
plus the device-side completion index and two thread-local driver flags
(reapSawHalt: eh_update_complete_index returned nonzero in eh_comp_thread;
threadStopped: eh_comp_thread broke out of its loop), plus ghost traces. -/
structure EhState where
  fifo_size : Nat
  write_index : Nat
  complete_index : Nat
  hw_complete_index : Nat
  fifoStatus : Nat → CompStatus
  completions : Nat → Nat
  nr_request : Nat
  suspended : Bool
  decompr_cmd_count : Nat
  decompr_busy : Nat → Bool
  hwHalted : Bool
  reapSawHalt : Bool
  threadStopped : Bool
  submitted : List Nat
  delivered : List Nat

def pendingCount (s : EhState) : Nat :=
  colorDist s.fifo_size s.complete_index s.write_index

def hwDist (s : EhState) : Nat :=
  colorDist s.fifo_size s.complete_index s.hw_complete_index

/-- The priv tokens of the in-flight window [complete_index, write_index). -/
def windowTokens (s : EhState) : List Nat :=
  (List.range (pendingCount s)).map
    (fun j => s.completions ((s.complete_index + j) % s.fifo_size))

inductive CompressAttempt
  | suspendedBusy
  | congested
  | admitted
  deriving DecidableEq, Repr

structure CompressOut where
  attempt : CompressAttempt
  ret : Int
  state : EhState

/-- The state after an admission by eh_compress_page (eh_main.c:846-861):
descriptor at the masked write index set to PENDING (eh_setup_descriptor),
cmpl->priv recorded, nr_request incremented, write_index advanced in color
space; the token is appended to the ghost submission trace. -/
def admitState (s : EhState) (priv : Nat) : EhState :=
  let masked_w_index := s.write_index % s.fifo_size
  { s with
    fifoStatus := fun i => if i = masked_w_index then CompStatus.pending
      else s.fifoStatus i,
    completions := fun i => if i = masked_w_index then priv else s.completions i,
    nr_request := s.nr_request + 1,
    write_index := (s.write_index + 1) % (2 * s.fifo_size),
    submitted := s.submitted ++ [priv] }

/-- One admission attempt of eh_main.c:814 eh_compress_page, i.e. one pass
from try_again to either a return or the congestion wait: return -EBUSY at
once when suspended; compute new_write_index and new_pending_count; when
new_pending_count > fifo_size drop the lock and wait (congested: state
unchanged, the caller loops back to try_again); otherwise admit. -/
def eh_compress_page_attempt (s : EhState) (priv : Nat) : CompressOut :=
  if s.suspended then ⟨.suspendedBusy, -EBUSY, s⟩
  else
    let new_write_index := (s.write_index + 1) % (2 * s.fifo_size)
    let new_pending_count := colorDist s.fifo_size s.complete_index new_write_index
    if s.fifo_size < new_pending_count then ⟨.congested, 0, s⟩
    else ⟨.admitted, 0, admitState s priv⟩

/-- One iteration of the eh_process_completions loop at machine granularity
(eh_main.c:382-392 together with the tail of
eh_process_completed_descriptor): deliver the callback for the slot at the
masked complete_index, reset the descriptor to IDLE, clear cmpl->priv,
decrement nr_request, advance complete_index by one in color space; record
in reapSawHalt whether the processed status was ERROR_HALTED (the nonzero
return that makes the loop break and eh_comp_thread run its error path). -/
def eh_reap_one (s : EhState) : EhState :=
  let index := s.complete_index % s.fifo_size
  { s with
    delivered := s.delivered ++ [s.completions index],
    fifoStatus := fun i => if i = index then CompStatus.idle else s.fifoStatus i,
    completions := fun i => if i = index then 0 else s.completions i,
    nr_request := s.nr_request - 1,
    complete_index := (s.complete_index + 1) % (2 * s.fifo_size),
    reapSawHalt := if s.fifoStatus index = CompStatus.errorHalted then true
      else s.reapSawHalt }

/-- Modelled from the spec: the device interface is hardware, not code under
src/.  Per spec sections 3 and 4.2 the device completes descriptors in ring
order: it writes a terminal status into the descriptor at its completion
index and advances that index; ERROR_HALTED is terminal for the whole ring,
after it the device completes nothing further (enforced by the hwHalted guard
of Step.hwComplete). -/
def hwCompleteStep (s : EhState) (st : CompStatus) : EhState :=
  let index := s.hw_complete_index % s.fifo_size
  { s with
    fifoStatus := fun i => if i = index then st else s.fifoStatus i,
    hw_complete_index := (s.hw_complete_index + 1) % (2 * s.fifo_size),
    hwHalted := if st = CompStatus.errorHalted then true else s.hwHalted }

/-- The for loop of eh_main.c:410 eh_abort_incomplete_descriptors, iterating
in masked index space from i with the given iteration count: each iteration
invokes the callback with (EH_CDESC_ERROR_HALTED, NULL, 0, cmpl->priv) and
clears cmpl->priv. -/
def abortLoop (compl_ : Nat → Nat) (N i : Nat) : Nat → List CallbackArgs × (Nat → Nat)
  | 0 => ([], compl_)
  | Nat.succ n =>
    let args : CallbackArgs := ⟨CompStatus.errorHalted, none, 0, compl_ i⟩
    let compl' := fun j => if j = i then 0 else compl_ j
    let rest := abortLoop compl' N ((i + 1) % N) n
    (args :: rest.1, rest.2)

/-- eh_main.c:410 eh_abort_incomplete_descriptors: masked_write_index =
write_index & fifo_index_mask, new_complete_index = the device-reported
completion index masked by fifo_index_mask; the loop runs i from
new_complete_index to masked_write_index in masked (mod fifo_size) space,
i.e. (masked_write_index - new_complete_index) mod fifo_size iterations.
It neither advances complete_index nor decrements nr_request. -/
def eh_abort_incomplete_descriptors (s : EhState) : List CallbackArgs × EhState :=
  let N := s.fifo_size
  let masked_write_index := s.write_index % N
  let new_complete_index := s.hw_complete_index % N
  let res := abortLoop s.completions N new_complete_index
    ((masked_write_index + N - new_complete_index) % N)
  (res.1, { s with completions := res.2 })

/-- The error branch of eh_comp_thread (eh_main.c:439-449): on a nonzero
return from eh_update_complete_index with the error register set, dump state,
run eh_abort_incomplete_descriptors and break out of the thread loop.  The
synthesized callbacks are appended to the ghost delivery trace. -/
def eh_halt_recovery (s : EhState) : EhState :=
  let res := eh_abort_incomplete_descriptors s
  { res.2 with
    delivered := s.delivered ++ res.1.map (fun a => a.token),
    threadStopped := true }

inductive RegName
  | intrpMaskError
  | intrpMaskCmp
  | intrpMaskDcmp
  | cdescCtrl
  deriving DecidableEq, Repr

inductive LockEvt
  | acqFifoProd
  | acqDecompr (i : Nat)
  | relDecompr (i : Nat)
  | relFifoProd
  deriving DecidableEq, Repr

/-- Observable effects of eh_suspend: return value, device registers written,
and the lock acquire / release trace. -/
structure SuspendOut where
  ret : Int
  reg_writes : List RegName
  lock_trace : List LockEvt
  deriving DecidableEq, Repr

/-- eh_main.c:1074 eh_suspend: take fifo_prod_lock then every decompr_lock in
index order; with any pending compression (nr_request > 0) or any busy
decompression slot, return -EBUSY having written no register; otherwise mask
the three interrupt registers, clear the compress-enable bit of CDESC_CTRL,
set suspended = true; in all cases release the locks in reverse order. -/
def eh_suspend (s : EhState) : SuspendOut × EhState :=
  let n := s.decompr_cmd_count
  let acq := LockEvt.acqFifoProd :: (List.range n).map LockEvt.acqDecompr
  let rel := ((List.range n).map LockEvt.relDecompr).reverse ++ [LockEvt.relFifoProd]
  if 0 < s.nr_request then
    (⟨-EBUSY, [], acq ++ rel⟩, s)
  else if (List.range n).any (fun i => s.decompr_busy i) then
    (⟨-EBUSY, [], acq ++ rel⟩, s)
  else
    (⟨0, [RegName.intrpMaskError, RegName.intrpMaskCmp, RegName.intrpMaskDcmp,
        RegName.cdescCtrl], acq ++ rel⟩,
     { s with suspended := true })

/-- eh_main.c:1125 eh_resume: eh_compr_fifo_init resets the hardware FIFO and
the software copies write_index = complete_index = 0, interrupts are
re-enabled and suspended cleared.  (The reaper thread, if it has exited after
a halt, is not restarted.) -/
def eh_resume (s : EhState) : EhState :=
  { s with
    write_index := 0
    complete_index := 0
    hw_complete_index := 0
    suspended := false }

/-- The device state right after eh_init: indices zero, descriptors and
completions zeroed (kzalloc), nr_request 0, not suspended, all decompression
slots free (decompr_busy kzalloc-ed to false), empty traces. -/
def initState (fifo_size decompr_cmd_count : Nat) : EhState :=
  { fifo_size := fifo_size, write_index := 0, complete_index := 0,
    hw_complete_index := 0,
    fifoStatus := fun _ => CompStatus.idle, completions := fun _ => 0,
    nr_request := 0, suspended := false,
    decompr_cmd_count := decompr_cmd_count, decompr_busy := fun _ => false,
    hwHalted := false, reapSawHalt := false, threadStopped := false,
    submitted := [], delivered := [] }

/-- The fifo-size check of eh_main.c:728: nonzero, a power of two
(__ffs(n) = __fls(n) holds exactly when one bit is set), at most
EH_MAX_FIFO_SIZE = 2 ^ 15 — together: n is one of 2 ^ 0 .. 2 ^ 15.  The
driver itself always passes eh_default_fifo_size = 256. -/
def validFifoSize (n : Nat) : Bool :=
  decide (n ≠ 0) && (List.range 16).any (fun k => decide (n = 2 ^ k)) &&
    decide (n ≤ EH_MAX_FIFO_SIZE)

/-- One interleaved-atomic step of the driver plus device. -/
inductive Step : EhState → EhState → Prop
  | submit (s : EhState) (priv : Nat) :
      (eh_compress_page_attempt s priv).attempt = CompressAttempt.admitted →
      Step s (eh_compress_page_attempt s priv).state
  | congest (s : EhState) (priv : Nat) :
      (eh_compress_page_attempt s priv).attempt = CompressAttempt.congested →
      Step s s
  | hwComplete (s : EhState) (st : CompStatus) :
      s.hwHalted = false → st ≠ CompStatus.idle → st ≠ CompStatus.pending →
      hwDist s < pendingCount s →
      Step s (hwCompleteStep s st)
  | reap (s : EhState) :
      s.threadStopped = false → s.reapSawHalt = false →
      s.hw_complete_index ≠ s.complete_index →
      Step s (eh_reap_one s)
  | haltRecover (s : EhState) :
      s.threadStopped = false → s.reapSawHalt = true →
      Step s (eh_halt_recovery s)
  | suspend (s : EhState) :
      Step s (eh_suspend s).2
  | resume (s : EhState) :
      s.suspended = true →
      Step s (eh_resume s)

/-- Reachability from a freshly initialized device with a fifo size accepted
by eh_init. -/
def Reach (fifo_size decompr_cmd_count : Nat) (s : EhState) : Prop :=
  validFifoSize fifo_size = true ∧
    Relation.ReflTransGen Step (initState fifo_size decompr_cmd_count) s

/-! ## Modular index arithmetic -/

lemma colorDist_lt (N a b : Nat) (hN : 0 < N) : colorDist N a b < 2 * N :=
  Nat.mod_lt _ (by omega)

lemma colorDist_closed (N a b : Nat) (ha : a < 2 * N) (hb : b < 2 * N) :
    colorDist N a b = if a ≤ b then b - a else b + (2 * N - a) := by
  unfold colorDist
  split
  · next h =>
    have e : b + 2 * N - a = b - a + 2 * N := by omega
    rw [e, Nat.add_mod_right, Nat.mod_eq_of_lt (by omega)]
  · next h =>
    have e : b + 2 * N - a = b + (2 * N - a) := by omega
    rw [e, Nat.mod_eq_of_lt (by omega)]

lemma colorDist_self (N a : Nat) (ha : a < 2 * N) : colorDist N a a = 0 := by
  rw [colorDist_closed N a a ha ha]
  simp

lemma colorDist_zero_iff (N a b : Nat) (ha : a < 2 * N) (hb : b < 2 * N) :
    colorDist N a b = 0 ↔ a = b := by
  rw [colorDist_closed N a b ha hb]
  split <;> omega

lemma colorDist_succ_right (N a b : Nat) (ha : a < 2 * N) (hb : b < 2 * N)
    (h : colorDist N a b + 1 < 2 * N) :
    colorDist N a ((b + 1) % (2 * N)) = colorDist N a b + 1 := by
  rw [colorDist_closed N a b ha hb] at h ⊢
  rcases Nat.lt_or_ge (b + 1) (2 * N) with hb1 | hb1
  · rw [Nat.mod_eq_of_lt hb1, colorDist_closed N a (b + 1) ha hb1]
    split_ifs at * <;> omega
  · have hb2 : (b + 1) % (2 * N) = 0 := by
      have e : b + 1 = 2 * N := by omega
      rw [e, Nat.mod_self]
    rw [hb2, colorDist_closed N a 0 ha (by omega)]
    split_ifs at * <;> omega

lemma colorDist_succ_left (N a b : Nat) (ha : a < 2 * N) (hb : b < 2 * N)
    (h : 0 < colorDist N a b) :
    colorDist N ((a + 1) % (2 * N)) b + 1 = colorDist N a b := by
  rw [colorDist_closed N a b ha hb] at h ⊢
  rcases Nat.lt_or_ge (a + 1) (2 * N) with ha1 | ha1
  · rw [Nat.mod_eq_of_lt ha1, colorDist_closed N (a + 1) b ha1 hb]
    split_ifs at * <;> omega
  · have ha2 : (a + 1) % (2 * N) = 0 := by
      have e : a + 1 = 2 * N := by omega
      rw [e, Nat.mod_self]
    rw [ha2, colorDist_closed N 0 b (by omega) hb]
    split_ifs at * <;> omega

lemma mod2N_add_mod (N x j : Nat) : (x % (2 * N) + j) % N = (x + j) % N := by
  conv_lhs => rw [Nat.add_mod]
  rw [Nat.mod_mod_of_dvd x (⟨2, by ring⟩ : N ∣ 2 * N), ← Nat.add_mod]

lemma masked_inj (N c j k : Nat) (hj : j < N) (hk : k < N)
    (h : (c + j) % N = (c + k) % N) : j = k := by
  have h' : j % N = k % N := Nat.ModEq.add_left_cancel' c h
  rwa [Nat.mod_eq_of_lt hj, Nat.mod_eq_of_lt hk] at h'

lemma masked_window (N c w : Nat) (_hN : 0 < N) (hc : c < 2 * N) (hw : w < 2 * N) :
    w % N = (c + colorDist N c w) % N := by
  rw [colorDist_closed N c w hc hw]
  split
  · next h => rw [Nat.add_sub_cancel' h]
  · next h =>
    have e : c + (w + (2 * N - c)) = w + N * 2 := by omega
    rw [e, Nat.add_mul_mod_self_left]

lemma add_mod_cancel_div (N c d : Nat) (hN : 0 < N) :
    (c + d + (N - c % N)) % N = d % N := by
  have hlt : c % N < N := Nat.mod_lt c hN
  have e : c + d + (N - c % N) = d + (c + (N - c % N)) := by omega
  rw [e, Nat.add_mod]
  have e2 : (c + (N - c % N)) % N = 0 := by
    conv_lhs => rw [← Nat.mod_add_mod]
    have e3 : c % N + (N - c % N) = N := by omega
    rw [e3, Nat.mod_self]
  rw [e2, Nat.add_zero, Nat.mod_mod_of_dvd d (dvd_refl N)]

lemma abort_count_eq (N c w : Nat) (hN : 0 < N) (hc : c < 2 * N) (hw : w < 2 * N) :
    (w % N + N - c % N) % N = colorDist N c w % N := by
  have h1 : w % N = (c + colorDist N c w) % N := masked_window N c w hN hc hw
  have hcm : c % N < N := Nat.mod_lt c hN
  have e1 : w % N + N - c % N = w % N + (N - c % N) := by omega
  rw [e1, h1, Nat.mod_add_mod]
  exact add_mod_cancel_div N c (colorDist N c w) hN

/-! ## Characterizing the abort loop and the branch structure of the
admission and suspend paths -/

lemma abortLoop_outs (N : Nat) (hN : 0 < N) :
    ∀ (n : Nat), n ≤ N → ∀ (i : Nat), i < N → ∀ (compl_ : Nat → Nat),
      (abortLoop compl_ N i n).1 = (List.range n).map
        (fun k => ⟨CompStatus.errorHalted, none, 0, compl_ ((i + k) % N)⟩) := by
  intro n
  induction n with
  | zero => intro _ i _ compl_; simp [abortLoop]
  | succ m ih =>
    intro hn i hi compl_
    have hrec := ih (by omega) ((i + 1) % N) (Nat.mod_lt _ hN)
      (fun j => if j = i then 0 else compl_ j)
    rw [abortLoop]
    simp only [hrec, List.range_succ_eq_map, List.map_cons, List.map_map,
      List.cons.injEq]
    refine ⟨?_, ?_⟩
    · have e : (i + 0) % N = i := by
        rw [Nat.add_zero, Nat.mod_eq_of_lt hi]
      rw [e]
    · apply List.map_congr_left
      intro k hk
      have hk' : k < m := List.mem_range.mp hk
      simp only [Function.comp, Nat.succ_eq_add_one]
      have e1 : ((i + 1) % N + k) % N = (i + (k + 1)) % N := by
        rw [Nat.mod_add_mod]
        congr 1
        omega
      rw [e1]
      have hne : (i + (k + 1)) % N ≠ i := by
        intro heq
        have heq' : (i + (k + 1)) % N = (i + 0) % N := by
          rw [heq, Nat.add_zero, Nat.mod_eq_of_lt hi]
        have := masked_inj N i (k + 1) 0 (by omega) (by omega) heq'
        omega
      simp [hne]

lemma compress_attempt_cases (s : EhState) (priv : Nat) :
    (s.suspended = true ∧ eh_compress_page_attempt s priv = ⟨.suspendedBusy, -EBUSY, s⟩) ∨
    (s.suspended = false ∧
      s.fifo_size < colorDist s.fifo_size s.complete_index
        ((s.write_index + 1) % (2 * s.fifo_size)) ∧
      eh_compress_page_attempt s priv = ⟨.congested, 0, s⟩) ∨
    (s.suspended = false ∧
      colorDist s.fifo_size s.complete_index
        ((s.write_index + 1) % (2 * s.fifo_size)) ≤ s.fifo_size ∧
      eh_compress_page_attempt s priv = ⟨.admitted, 0, admitState s priv⟩) := by
  by_cases hs : s.suspended = true
  · left
    exact ⟨hs, by simp [eh_compress_page_attempt, hs]⟩
  · have hs' : s.suspended = false := by
      cases h : s.suspended
      · rfl
      · exact absurd h hs
    by_cases hp : s.fifo_size < colorDist s.fifo_size s.complete_index
        ((s.write_index + 1) % (2 * s.fifo_size))
    · right; left
      exact ⟨hs', hp, by simp [eh_compress_page_attempt, hs', hp]⟩
    · right; right
      exact ⟨hs', by omega, by simp [eh_compress_page_attempt, hs', hp]⟩

lemma suspend_cases (s : EhState) :
    ((0 < s.nr_request ∨
        (List.range s.decompr_cmd_count).any (fun i => s.decompr_busy i) = true) ∧
      (eh_suspend s).2 = s) ∨
    (s.nr_request = 0 ∧
      (List.range s.decompr_cmd_count).any (fun i => s.decompr_busy i) = false ∧
      (eh_suspend s).2 = { s with suspended := true }) := by
  by_cases h1 : 0 < s.nr_request
  · left
    exact ⟨Or.inl h1, by simp [eh_suspend, h1]⟩
  · by_cases h2 : (List.range s.decompr_cmd_count).any (fun i => s.decompr_busy i) = true
    · left
      exact ⟨Or.inr h2, by simp [eh_suspend, h1, h2]⟩
    · right
      have h2' : (List.range s.decompr_cmd_count).any (fun i => s.decompr_busy i) = false := by
        cases h : (List.range s.decompr_cmd_count).any (fun i => s.decompr_busy i)
        · rfl
        · exact absurd h h2
      exact ⟨by omega, h2', by simp [eh_suspend, h1, h2']⟩

/-! ## The ring invariant -/

/-- The inductive invariant of the compression ring: index bounds, at most
fifo_size requests in flight, the device index between the reaper index and
the producer index, nr_request counting the in-flight window, ERROR_HALTED
only as the last completed slot (the device stops on it), every slot outside
the in-flight window IDLE, the thread-local flags consistent, and the ghost
traces related: while the reaper runs, the submission trace is exactly the
delivery trace followed by the in-flight tokens; the delivery trace is always
a prefix of the submission trace. -/
structure Inv (s : EhState) : Prop where
  size_pos : 2 ≤ s.fifo_size
  w_lt : s.write_index < 2 * s.fifo_size
  c_lt : s.complete_index < 2 * s.fifo_size
  hw_lt : s.hw_complete_index < 2 * s.fifo_size
  pending_le : pendingCount s ≤ s.fifo_size
  hw_le : hwDist s ≤ pendingCount s
  nr_eq : s.nr_request = pendingCount s
  halt_last : ∀ j, j < hwDist s →
    s.fifoStatus ((s.complete_index + j) % s.fifo_size) = CompStatus.errorHalted →
    s.hwHalted = true ∧ j + 1 = hwDist s
  outside_idle : ∀ m, m < s.fifo_size →
    (∀ j, j < pendingCount s → (s.complete_index + j) % s.fifo_size ≠ m) →
    s.fifoStatus m = CompStatus.idle
  saw_halt : s.reapSawHalt = true → hwDist s = 0 ∧ s.hwHalted = true
  susp_nr : s.suspended = true → s.nr_request = 0
  stopped_hw : s.threadStopped = true → s.hwHalted = true
  trace_eq : s.threadStopped = false → s.submitted = s.delivered ++ windowTokens s
  trace_pre : ∃ rest, s.submitted = s.delivered ++ rest

lemma pendingCount_def (s : EhState) :
    pendingCount s = colorDist s.fifo_size s.complete_index s.write_index := rfl

lemma hwDist_def (s : EhState) :
    hwDist s = colorDist s.fifo_size s.complete_index s.hw_complete_index := rfl

lemma inv_init (N M : Nat) (hN : 2 ≤ N) : Inv (initState N M) := by
  have hp : pendingCount (initState N M) = 0 := by
    simp [pendingCount, initState, colorDist]
  have hh : hwDist (initState N M) = 0 := by
    simp [hwDist, initState, colorDist]
  refine ⟨hN, by simp [initState]; omega, by simp [initState]; omega,
    by simp [initState]; omega, by omega, by omega, by rw [hp]; rfl,
    ?_, ?_, ?_, ?_, ?_, ?_, ?_⟩
  · intro j hj
    rw [hh] at hj
    omega
  · intro m _ _
    rfl
  · intro hx
    exact absurd hx (by simp [initState])
  · intro _
    rfl
  · intro hx
    exact absurd hx (by simp [initState])
  · intro _
    have hw0 : windowTokens (initState N M) = [] := by simp [windowTokens, hp]
    rw [hw0]
    rfl
  · exact ⟨[], rfl⟩

lemma inv_suspend (s : EhState) (h : Inv s) : Inv (eh_suspend s).2 := by
  rcases suspend_cases s with ⟨_, heq⟩ | ⟨hnr, _, heq⟩
  · rw [heq]
    exact h
  · rw [heq]
    refine ⟨h.size_pos, h.w_lt, h.c_lt, h.hw_lt, h.pending_le, h.hw_le, h.nr_eq,
      h.halt_last, h.outside_idle, h.saw_halt, ?_, h.stopped_hw, h.trace_eq,
      h.trace_pre⟩
    intro _
    exact hnr

lemma inv_resume (s : EhState) (h : Inv s) (hs : s.suspended = true) :
    Inv (eh_resume s) := by
  have hN : 2 ≤ s.fifo_size := h.size_pos
  have hnr : s.nr_request = 0 := h.susp_nr hs
  have hp0 : pendingCount s = 0 := by rw [← h.nr_eq]; exact hnr
  have hp' : pendingCount (eh_resume s) = 0 := by
    simp [pendingCount, eh_resume, colorDist]
  have hh' : hwDist (eh_resume s) = 0 := by
    simp [hwDist, eh_resume, colorDist]
  refine ⟨hN, by simp [eh_resume]; omega, by simp [eh_resume]; omega,
    by simp [eh_resume]; omega, by omega, by omega, ?_, ?_, ?_, ?_, ?_, ?_, ?_, ?_⟩
  · show s.nr_request = pendingCount (eh_resume s)
    omega
  · intro j hj
    rw [hh'] at hj
    omega
  · intro m hm _
    exact h.outside_idle m hm (by intro j hj; rw [hp0] at hj; omega)
  · intro hsh
    exact ⟨hh', (h.saw_halt hsh).2⟩
  · intro hx
    exact absurd hx (by simp [eh_resume])
  · exact h.stopped_hw
  · intro hst
    have ht := h.trace_eq hst
    have hw0 : windowTokens s = [] := by simp [windowTokens, hp0]
    have hw1 : windowTokens (eh_resume s) = [] := by simp [windowTokens, hp']
    rw [hw0] at ht
    show s.submitted = s.delivered ++ windowTokens (eh_resume s)
    rw [hw1]
    exact ht
  · exact h.trace_pre

lemma windowTokens_def (s : EhState) : windowTokens s =
    (List.range (pendingCount s)).map
      (fun j => s.completions ((s.complete_index + j) % s.fifo_size)) := rfl

lemma inv_submit (s : EhState) (priv : Nat) (h : Inv s)
    (hg : (eh_compress_page_attempt s priv).attempt = CompressAttempt.admitted) :
    Inv (eh_compress_page_attempt s priv).state := by
  rcases compress_attempt_cases s priv with ⟨_, heq⟩ | ⟨_, _, heq⟩ | ⟨hsusp, hadm, heq⟩
  · rw [heq] at hg
    exact absurd hg (by simp)
  · rw [heq] at hg
    exact absurd hg (by simp)
  rw [heq]
  show Inv (admitState s priv)
  have hN := h.size_pos
  have hwlt := h.w_lt
  have hclt := h.c_lt
  have hhwlt := h.hw_lt
  have hple := h.pending_le
  have hdh := h.hw_le
  have hNpos : 0 < s.fifo_size := by omega
  rw [pendingCount_def] at hple
  rw [hwDist_def, pendingCount_def] at hdh
  have hps : colorDist s.fifo_size s.complete_index
      ((s.write_index + 1) % (2 * s.fifo_size))
      = colorDist s.fifo_size s.complete_index s.write_index + 1 :=
    colorDist_succ_right _ _ _ hclt hwlt (by omega)
  rw [hps] at hadm
  have hwm : s.write_index % s.fifo_size =
      (s.complete_index + colorDist s.fifo_size s.complete_index s.write_index) %
        s.fifo_size :=
    masked_window _ _ _ hNpos hclt hwlt
  have hfs : (admitState s priv).fifo_size = s.fifo_size := rfl
  have hcc : (admitState s priv).complete_index = s.complete_index := rfl
  have hhh : (admitState s priv).hw_complete_index = s.hw_complete_index := rfl
  have hwf : (admitState s priv).write_index
      = (s.write_index + 1) % (2 * s.fifo_size) := rfl
  have hcomp : (admitState s priv).completions
      = fun i => if i = s.write_index % s.fifo_size then priv
          else s.completions i := rfl
  have hpnew : pendingCount (admitState s priv)
      = colorDist s.fifo_size s.complete_index s.write_index + 1 := by
    rw [pendingCount_def, hfs, hcc, hwf, hps]
  have hhnew : hwDist (admitState s priv)
      = colorDist s.fifo_size s.complete_index s.hw_complete_index := by
    rw [hwDist_def, hfs, hcc, hhh]
  have hwt : windowTokens (admitState s priv) = windowTokens s ++ [priv] := by
    rw [windowTokens_def, windowTokens_def, hpnew, pendingCount_def]
    simp only [hcomp, hcc, hfs]
    rw [List.range_succ, List.map_append]
    congr 1
    · apply List.map_congr_left
      intro j hj
      have hj' : j < colorDist s.fifo_size s.complete_index s.write_index :=
        List.mem_range.mp hj
      rw [if_neg ?_]
      intro he
      rw [hwm] at he
      have := masked_inj _ _ _ _ (by omega) (by omega) he
      omega
    · simp only [List.map_cons, List.map_nil]
      rw [if_pos hwm.symm]
  refine ⟨hN, ?_, hclt, hhwlt, ?_, ?_, ?_, ?_, ?_, ?_, ?_, ?_, ?_, ?_⟩
  · exact Nat.mod_lt _ (by omega)
  · rw [hpnew, hfs]
    exact hadm
  · rw [hhnew, hpnew]
    omega
  · show s.nr_request + 1 = pendingCount (admitState s priv)
    rw [hpnew]
    have hnr := h.nr_eq
    rw [pendingCount_def] at hnr
    omega
  · intro j hj hst
    rw [hhnew] at hj
    have hne : (s.complete_index + j) % s.fifo_size
        ≠ s.write_index % s.fifo_size := by
      intro he
      rw [hwm] at he
      have := masked_inj _ _ _ _ (by omega) (by omega) he
      omega
    have hst2 : (if (s.complete_index + j) % s.fifo_size
          = s.write_index % s.fifo_size then CompStatus.pending
        else s.fifoStatus ((s.complete_index + j) % s.fifo_size))
        = CompStatus.errorHalted := hst
    rw [if_neg hne] at hst2
    have hres := h.halt_last j (by rw [hwDist_def]; exact hj) hst2
    refine ⟨hres.1, ?_⟩
    rw [hhnew]
    rw [hwDist_def] at hres
    exact hres.2
  · intro m hm hout
    have hm' : m < s.fifo_size := hm
    have hmw : s.write_index % s.fifo_size ≠ m := by
      have hx := hout (colorDist s.fifo_size s.complete_index s.write_index)
        (by rw [hpnew]; omega)
      intro he
      apply hx
      show (s.complete_index + _) % s.fifo_size = m
      rw [← hwm]
      exact he
    have hold : s.fifoStatus m = CompStatus.idle := by
      apply h.outside_idle m hm'
      intro j hj
      rw [pendingCount_def] at hj
      exact hout j (by rw [hpnew]; omega)
    show (if m = s.write_index % s.fifo_size then CompStatus.pending
        else s.fifoStatus m) = CompStatus.idle
    rw [if_neg (fun he => hmw he.symm), hold]
  · intro hsh
    have hres := h.saw_halt hsh
    refine ⟨?_, hres.2⟩
    rw [hhnew]
    rw [hwDist_def] at hres
    exact hres.1
  · intro hx
    have hx' : s.suspended = true := hx
    rw [hsusp] at hx'
    exact Bool.noConfusion hx'
  · exact fun hx => h.stopped_hw hx
  · intro hst
    have ht := h.trace_eq hst
    show s.submitted ++ [priv]
        = s.delivered ++ windowTokens (admitState s priv)
    rw [hwt, ht, List.append_assoc]
  · obtain ⟨r, hr⟩ := h.trace_pre
    refine ⟨r ++ [priv], ?_⟩
    show s.submitted ++ [priv] = s.delivered ++ (r ++ [priv])
    rw [hr, List.append_assoc]

lemma inv_reap (s : EhState) (h : Inv s)
    (hstop : s.threadStopped = false) (hsaw : s.reapSawHalt = false)
    (hneq : s.hw_complete_index ≠ s.complete_index) :
    Inv (eh_reap_one s) := by
  have hN := h.size_pos
  have hwlt := h.w_lt
  have hclt := h.c_lt
  have hhwlt := h.hw_lt
  have hple := h.pending_le
  have hdh := h.hw_le
  have hnr := h.nr_eq
  have hNpos : 0 < s.fifo_size := by omega
  rw [pendingCount_def] at hple hnr
  rw [hwDist_def, pendingCount_def] at hdh
  have hdh0 : 0 < colorDist s.fifo_size s.complete_index s.hw_complete_index := by
    rcases Nat.eq_zero_or_pos
        (colorDist s.fifo_size s.complete_index s.hw_complete_index) with h0 | h0
    · exact absurd ((colorDist_zero_iff _ _ _ hclt hhwlt).mp h0).symm hneq
    · exact h0
  have hp0 : 0 < colorDist s.fifo_size s.complete_index s.write_index := by omega
  have hpred : colorDist s.fifo_size ((s.complete_index + 1) % (2 * s.fifo_size))
        s.write_index + 1
      = colorDist s.fifo_size s.complete_index s.write_index :=
    colorDist_succ_left _ _ _ hclt hwlt hp0
  have hhpred : colorDist s.fifo_size ((s.complete_index + 1) % (2 * s.fifo_size))
        s.hw_complete_index + 1
      = colorDist s.fifo_size s.complete_index s.hw_complete_index :=
    colorDist_succ_left _ _ _ hclt hhwlt hdh0
  have hfs : (eh_reap_one s).fifo_size = s.fifo_size := rfl
  have hcc : (eh_reap_one s).complete_index
      = (s.complete_index + 1) % (2 * s.fifo_size) := rfl
  have hww : (eh_reap_one s).write_index = s.write_index := rfl
  have hhh : (eh_reap_one s).hw_complete_index = s.hw_complete_index := rfl
  have hpnew : pendingCount (eh_reap_one s) + 1
      = colorDist s.fifo_size s.complete_index s.write_index := by
    rw [pendingCount_def, hfs, hcc, hww]
    exact hpred
  have hhnew : hwDist (eh_reap_one s) + 1
      = colorDist s.fifo_size s.complete_index s.hw_complete_index := by
    rw [hwDist_def, hfs, hcc, hhh]
    exact hhpred
  have hc0 : (s.complete_index + 0) % s.fifo_size
      = s.complete_index % s.fifo_size := by
    rw [Nat.add_zero]
  have hshift : ∀ j, ((s.complete_index + 1) % (2 * s.fifo_size) + j) % s.fifo_size
      = (s.complete_index + (j + 1)) % s.fifo_size := by
    intro j
    rw [mod2N_add_mod]
    congr 1
    omega
  have hne1 : ∀ j, j + 1 < s.fifo_size →
      (s.complete_index + (j + 1)) % s.fifo_size
        ≠ s.complete_index % s.fifo_size := by
    intro j hj he
    have he' : (s.complete_index + (j + 1)) % s.fifo_size
        = (s.complete_index + 0) % s.fifo_size := by
      rw [hc0]
      exact he
    have := masked_inj _ _ _ _ hj hNpos he'
    omega
  have hwts : windowTokens s
      = s.completions (s.complete_index % s.fifo_size)
        :: windowTokens (eh_reap_one s) := by
    rw [windowTokens_def, windowTokens_def, pendingCount_def]
    rw [show colorDist s.fifo_size s.complete_index s.write_index
        = pendingCount (eh_reap_one s) + 1 from hpnew.symm]
    rw [List.range_succ_eq_map, List.map_cons, List.map_map]
    rw [hc0]
    congr 1
    apply List.map_congr_left
    intro j hj
    have hj' : j < pendingCount (eh_reap_one s) := List.mem_range.mp hj
    simp only [Function.comp, Nat.succ_eq_add_one]
    have hj1 : j + 1 < s.fifo_size := by omega
    show s.completions ((s.complete_index + (j + 1)) % s.fifo_size)
        = (if ((s.complete_index + 1) % (2 * s.fifo_size) + j) % s.fifo_size
            = s.complete_index % s.fifo_size then 0
          else s.completions
            (((s.complete_index + 1) % (2 * s.fifo_size) + j) % s.fifo_size))
    rw [hshift j, if_neg (hne1 j hj1)]
  have htr : s.submitted
      = (s.delivered ++ [s.completions (s.complete_index % s.fifo_size)])
        ++ windowTokens (eh_reap_one s) := by
    rw [h.trace_eq hstop, hwts, ← List.append_cons]
  refine ⟨hN, hwlt, Nat.mod_lt _ (by omega), hhwlt, ?_, ?_, ?_, ?_, ?_, ?_, ?_,
    ?_, ?_, ?_⟩
  · show pendingCount (eh_reap_one s) ≤ s.fifo_size
    omega
  · omega
  · show s.nr_request - 1 = pendingCount (eh_reap_one s)
    omega
  · intro j hj hst
    have hj2 : j + 1 < colorDist s.fifo_size s.complete_index s.hw_complete_index := by
      omega
    have hj1 : j + 1 < s.fifo_size := by omega
    have hst2 : (if ((s.complete_index + 1) % (2 * s.fifo_size) + j) % s.fifo_size
          = s.complete_index % s.fifo_size then CompStatus.idle
        else s.fifoStatus
          (((s.complete_index + 1) % (2 * s.fifo_size) + j) % s.fifo_size))
        = CompStatus.errorHalted := hst
    rw [hshift j, if_neg (hne1 j hj1)] at hst2
    have hres := h.halt_last (j + 1) (by rw [hwDist_def]; omega) hst2
    rw [hwDist_def] at hres
    exact ⟨hres.1, by omega⟩
  · intro m hm hout
    have hm' : m < s.fifo_size := hm
    show (if m = s.complete_index % s.fifo_size then CompStatus.idle
        else s.fifoStatus m) = CompStatus.idle
    by_cases hmc : m = s.complete_index % s.fifo_size
    · rw [if_pos hmc]
    · rw [if_neg hmc]
      apply h.outside_idle m hm'
      intro j hj
      rw [pendingCount_def] at hj
      cases j with
      | zero =>
        rw [hc0]
        exact fun he => hmc he.symm
      | succ j' =>
        have hj' : j' < pendingCount (eh_reap_one s) := by omega
        have hx : ((s.complete_index + 1) % (2 * s.fifo_size) + j') % s.fifo_size
            ≠ m := hout j' hj'
        rw [hshift j'] at hx
        exact hx
  · intro hsh
    have hsh2 : (if s.fifoStatus (s.complete_index % s.fifo_size)
          = CompStatus.errorHalted then true else s.reapSawHalt) = true := hsh
    by_cases hhal : s.fifoStatus (s.complete_index % s.fifo_size)
        = CompStatus.errorHalted
    · have hst2 : s.fifoStatus ((s.complete_index + 0) % s.fifo_size)
          = CompStatus.errorHalted := by
        rw [hc0]
        exact hhal
      have hres := h.halt_last 0 (by rw [hwDist_def]; omega) hst2
      rw [hwDist_def] at hres
      exact ⟨by omega, hres.1⟩
    · rw [if_neg hhal, hsaw] at hsh2
      exact Bool.noConfusion hsh2
  · intro hx
    have hx' := h.susp_nr hx
    show s.nr_request - 1 = 0
    omega
  · exact fun hx => h.stopped_hw hx
  · intro _
    exact htr
  · exact ⟨windowTokens (eh_reap_one s), htr⟩

lemma inv_hwComplete (s : EhState) (st : CompStatus) (h : Inv s)
    (hhal : s.hwHalted = false) (_hid : st ≠ CompStatus.idle)
    (_hpd : st ≠ CompStatus.pending) (hlt : hwDist s < pendingCount s) :
    Inv (hwCompleteStep s st) := by
  have hN := h.size_pos
  have hwlt := h.w_lt
  have hclt := h.c_lt
  have hhwlt := h.hw_lt
  have hple := h.pending_le
  have hnr := h.nr_eq
  have hNpos : 0 < s.fifo_size := by omega
  rw [pendingCount_def] at hple hnr
  rw [hwDist_def, pendingCount_def] at hlt
  have hsucc : colorDist s.fifo_size s.complete_index
      ((s.hw_complete_index + 1) % (2 * s.fifo_size))
      = colorDist s.fifo_size s.complete_index s.hw_complete_index + 1 :=
    colorDist_succ_right _ _ _ hclt hhwlt (by omega)
  have hhwm : s.hw_complete_index % s.fifo_size
      = (s.complete_index
          + colorDist s.fifo_size s.complete_index s.hw_complete_index) %
        s.fifo_size :=
    masked_window _ _ _ hNpos hclt hhwlt
  have hfs : (hwCompleteStep s st).fifo_size = s.fifo_size := rfl
  have hcc : (hwCompleteStep s st).complete_index = s.complete_index := rfl
  have hww : (hwCompleteStep s st).write_index = s.write_index := rfl
  have hhh : (hwCompleteStep s st).hw_complete_index
      = (s.hw_complete_index + 1) % (2 * s.fifo_size) := rfl
  have hpnew : pendingCount (hwCompleteStep s st)
      = colorDist s.fifo_size s.complete_index s.write_index := by
    rw [pendingCount_def, hfs, hcc, hww]
  have hhnew : hwDist (hwCompleteStep s st)
      = colorDist s.fifo_size s.complete_index s.hw_complete_index + 1 := by
    rw [hwDist_def, hfs, hcc, hhh, hsucc]
  have hwt : windowTokens (hwCompleteStep s st) = windowTokens s := rfl
  refine ⟨hN, hwlt, hclt, Nat.mod_lt _ (by omega), ?_, ?_, ?_, ?_, ?_, ?_, ?_,
    ?_, ?_, ?_⟩
  · show pendingCount (hwCompleteStep s st) ≤ s.fifo_size
    omega
  · omega
  · show s.nr_request = pendingCount (hwCompleteStep s st)
    omega
  · intro j hj hst
    rw [hhnew] at hj
    by_cases hjd : j = colorDist s.fifo_size s.complete_index s.hw_complete_index
    · have hidx : (s.complete_index + j) % s.fifo_size
          = s.hw_complete_index % s.fifo_size := by
        rw [hjd, ← hhwm]
      have hst2 : st = CompStatus.errorHalted := by
        have hx : (if (s.complete_index + j) % s.fifo_size
              = s.hw_complete_index % s.fifo_size then st
            else s.fifoStatus ((s.complete_index + j) % s.fifo_size))
            = CompStatus.errorHalted := hst
        rw [if_pos hidx] at hx
        exact hx
      constructor
      · show (if st = CompStatus.errorHalted then true else s.hwHalted) = true
        rw [if_pos hst2]
      · rw [hhnew]
        omega
    · have hne : (s.complete_index + j) % s.fifo_size
          ≠ s.hw_complete_index % s.fifo_size := by
        intro he
        rw [hhwm] at he
        have := masked_inj _ _ _ _ (by omega) (by omega) he
        omega
      have hst2 : s.fifoStatus ((s.complete_index + j) % s.fifo_size)
          = CompStatus.errorHalted := by
        have hx : (if (s.complete_index + j) % s.fifo_size
              = s.hw_complete_index % s.fifo_size then st
            else s.fifoStatus ((s.complete_index + j) % s.fifo_size))
            = CompStatus.errorHalted := hst
        rw [if_neg hne] at hx
        exact hx
      have hres := h.halt_last j (by rw [hwDist_def]; omega) hst2
      rw [hres.1] at hhal
      exact Bool.noConfusion hhal
  · intro m hm hout
    have hm' : m < s.fifo_size := hm
    have hmw : s.hw_complete_index % s.fifo_size ≠ m := by
      have hx : (s.complete_index
            + colorDist s.fifo_size s.complete_index s.hw_complete_index) %
          s.fifo_size ≠ m := hout _ (by rw [hpnew]; omega)
      rw [← hhwm] at hx
      exact hx
    show (if m = s.hw_complete_index % s.fifo_size then st else s.fifoStatus m)
        = CompStatus.idle
    rw [if_neg (fun he => hmw he.symm)]
    apply h.outside_idle m hm'
    intro j hj
    rw [pendingCount_def] at hj
    exact hout j (by rw [hpnew]; omega)
  · intro hsh
    have hres := h.saw_halt hsh
    rw [hres.2] at hhal
    exact Bool.noConfusion hhal
  · exact fun hx => h.susp_nr hx
  · intro hx
    have := h.stopped_hw hx
    rw [this] at hhal
    exact Bool.noConfusion hhal
  · intro hst'
    have ht := h.trace_eq hst'
    show s.submitted = s.delivered ++ windowTokens (hwCompleteStep s st)
    rw [hwt]
    exact ht
  · exact h.trace_pre

lemma inv_haltRecover (s : EhState) (h : Inv s)
    (hstop : s.threadStopped = false) (hsaw : s.reapSawHalt = true) :
    Inv (eh_halt_recovery s) := by
  have hN := h.size_pos
  have hclt := h.c_lt
  have hwlt := h.w_lt
  have hhwlt := h.hw_lt
  have hNpos : 0 < s.fifo_size := by omega
  have hsh := h.saw_halt hsaw
  have hchw : s.complete_index = s.hw_complete_index := by
    have hz := hsh.1
    rw [hwDist_def] at hz
    exact (colorDist_zero_iff _ _ _ hclt hhwlt).mp hz
  have hcnt : (s.write_index % s.fifo_size + s.fifo_size
        - s.hw_complete_index % s.fifo_size) % s.fifo_size
      = colorDist s.fifo_size s.complete_index s.write_index % s.fifo_size := by
    rw [← hchw]
    exact abort_count_eq _ _ _ hNpos hclt hwlt
  have htok : (eh_abort_incomplete_descriptors s).1.map (fun a => a.token)
      = (List.range
          (colorDist s.fifo_size s.complete_index s.write_index % s.fifo_size)).map
          (fun k => s.completions ((s.complete_index + k) % s.fifo_size)) := by
    show ((abortLoop s.completions s.fifo_size
        (s.hw_complete_index % s.fifo_size)
        ((s.write_index % s.fifo_size + s.fifo_size
          - s.hw_complete_index % s.fifo_size) % s.fifo_size)).1).map
        (fun a => a.token) = _
    rw [abortLoop_outs s.fifo_size hNpos _
        (le_of_lt (Nat.mod_lt _ hNpos)) _ (Nat.mod_lt _ hNpos) s.completions]
    rw [hcnt, List.map_map]
    apply List.map_congr_left
    intro k hk
    simp only [Function.comp]
    rw [Nat.mod_add_mod, ← hchw]
  have htr : ∃ rest, s.submitted
      = (s.delivered ++ (eh_abort_incomplete_descriptors s).1.map
          (fun a => a.token)) ++ rest := by
    rcases Nat.lt_or_ge (colorDist s.fifo_size s.complete_index s.write_index)
        s.fifo_size with hplt | hpge
    · refine ⟨[], ?_⟩
      rw [List.append_nil, htok, Nat.mod_eq_of_lt hplt, h.trace_eq hstop,
        windowTokens_def, pendingCount_def]
    · have hpeq : colorDist s.fifo_size s.complete_index s.write_index
          = s.fifo_size := by
        have hx := h.pending_le
        rw [pendingCount_def] at hx
        omega
      refine ⟨windowTokens s, ?_⟩
      rw [htok, hpeq, Nat.mod_self]
      simp only [List.range_zero, List.map_nil, List.append_nil]
      exact h.trace_eq hstop
  refine ⟨hN, hwlt, hclt, hhwlt, h.pending_le, h.hw_le, h.nr_eq, ?_, ?_, ?_,
    h.susp_nr, ?_, ?_, ?_⟩
  · intro j hj
    have hz : hwDist (eh_halt_recovery s) = 0 := hsh.1
    rw [hz] at hj
    omega
  · exact h.outside_idle
  · intro _
    exact ⟨hsh.1, hsh.2⟩
  · intro _
    exact hsh.2
  · intro hx
    exact Bool.noConfusion hx
  · exact htr

lemma inv_step (s s' : EhState) (h : Inv s) (hs : Step s s') : Inv s' := by
  cases hs with
  | submit priv hg => exact inv_submit s priv h hg
  | congest priv _ => exact h
  | hwComplete st h1 h2 h3 h4 => exact inv_hwComplete s st h h1 h2 h3 h4
  | reap h1 h2 h3 => exact inv_reap s h h1 h2 h3
  | haltRecover h1 h2 => exact inv_haltRecover s h h1 h2
  | suspend => exact inv_suspend s h
  | resume h1 => exact inv_resume s h h1

lemma reach_inv (N M : Nat) (s : EhState) (hN : 2 ≤ N) (hr : Reach N M s) :
    Inv s := by
  obtain ⟨_, hrtg⟩ := hr
  induction hrtg with
  | refl => exact inv_init N M hN
  | tail hab hbc ih => exact inv_step _ _ ih hbc

lemma attempt_state_fifo_size (s : EhState) (priv : Nat) :
    (eh_compress_page_attempt s priv).state.fifo_size = s.fifo_size := by
  rcases compress_attempt_cases s priv with ⟨_, heq⟩ | ⟨_, _, heq⟩ | ⟨_, _, heq⟩ <;>
    rw [heq] <;> rfl

lemma step_fifo_size (s s' : EhState) (hs : Step s s') :
    s'.fifo_size = s.fifo_size := by
  cases hs with
  | submit priv hg => exact attempt_state_fifo_size s priv
  | congest priv _ => rfl
  | hwComplete st _ _ _ _ => rfl
  | reap _ _ _ => rfl
  | haltRecover _ _ => rfl
  | suspend =>
    rcases suspend_cases s with ⟨_, heq⟩ | ⟨_, _, heq⟩ <;> rw [heq]
  | resume _ => rfl

lemma step_decompr (s s' : EhState) (hs : Step s s') :
    s'.decompr_busy = s.decompr_busy ∧
      s'.decompr_cmd_count = s.decompr_cmd_count := by
  cases hs with
  | submit priv hg =>
    rcases compress_attempt_cases s priv with ⟨_, heq⟩ | ⟨_, _, heq⟩ | ⟨_, _, heq⟩ <;>
      rw [heq] <;> exact ⟨rfl, rfl⟩
  | congest priv _ => exact ⟨rfl, rfl⟩
  | hwComplete st _ _ _ _ => exact ⟨rfl, rfl⟩
  | reap _ _ _ => exact ⟨rfl, rfl⟩
  | haltRecover _ _ => exact ⟨rfl, rfl⟩
  | suspend =>
    rcases suspend_cases s with ⟨_, heq⟩ | ⟨_, _, heq⟩ <;> rw [heq] <;>
      exact ⟨rfl, rfl⟩
  | resume _ => exact ⟨rfl, rfl⟩

lemma reach_decompr_busy (N M : Nat) (s : EhState) (hr : Reach N M s) :
    ∀ i, s.decompr_busy i = false := by
  obtain ⟨_, hrtg⟩ := hr
  induction hrtg with
  | refl => intro i; rfl
  | tail hab hbc ih =>
    intro i
    rw [(step_decompr _ _ hbc).1]
    exact ih i

/-- Once the reaper thread has exited (after halt recovery), no step of the
system delivers any further completion, and the thread never restarts. -/
lemma stopped_frozen_step (s s' : EhState) (hs : Step s s')
    (h : s.threadStopped = true) :
    s'.delivered = s.delivered ∧ s'.threadStopped = true := by
  cases hs with
  | submit priv hg =>
    rcases compress_attempt_cases s priv with ⟨_, heq⟩ | ⟨_, _, heq⟩ | ⟨_, _, heq⟩ <;>
      rw [heq] <;> exact ⟨rfl, h⟩
  | congest priv _ => exact ⟨rfl, h⟩
  | hwComplete st _ _ _ _ => exact ⟨rfl, h⟩
  | reap h1 _ _ =>
    rw [h] at h1
    exact Bool.noConfusion h1
  | haltRecover h1 _ =>
    rw [h] at h1
    exact Bool.noConfusion h1
  | suspend =>
    rcases suspend_cases s with ⟨_, heq⟩ | ⟨_, _, heq⟩ <;> rw [heq] <;>
      exact ⟨rfl, h⟩
  | resume _ => exact ⟨rfl, h⟩

lemma stopped_frozen (s s' : EhState)
    (hr : Relation.ReflTransGen Step s s') (h : s.threadStopped = true) :
    s'.delivered = s.delivered ∧ s'.threadStopped = true := by
  induction hr with
  | refl => exact ⟨rfl, h⟩
  | tail hab hbc ih =>
    obtain ⟨hd, ht⟩ := ih
    obtain ⟨hd2, ht2⟩ := stopped_frozen_step _ _ hbc ht
    exact ⟨hd2.trans hd, ht2⟩

/-! ## Helper lemmas for the polling loop and __ffs -/

lemma pollStatus_all_pending (read : Nat → DcmdStatus) :
    ∀ fuel t, (∀ u, u < fuel → read (t + u) = DcmdStatus.pending) →
      pollStatus read fuel t = none := by
  intro fuel
  induction fuel with
  | zero => intro t _; rfl
  | succ m ih =>
    intro t hall
    have h0 : read t = DcmdStatus.pending := by
      have := hall 0 (by omega)
      rwa [Nat.add_zero] at this
    show (if read t = DcmdStatus.pending then pollStatus read m (t + 1)
        else some (read t)) = none
    rw [if_pos h0]
    apply ih (t + 1)
    intro u hu
    have := hall (u + 1) (by omega)
    rwa [show t + (u + 1) = t + 1 + u by omega] at this

lemma ffs_spec (n : Nat) (hn : 0 < n) :
    2 ^ ffs n ∣ n ∧ ¬ 2 ^ (ffs n + 1) ∣ n := by
  induction n using Nat.strong_induction_on with
  | _ n ih =>
    obtain ⟨k, rfl⟩ : ∃ k, n = k + 1 := ⟨n - 1, by omega⟩
    by_cases hpar : (k + 1) % 2 = 0
    · have hff : ffs (k + 1) = ffs ((k + 1) / 2) + 1 := by
        rw [ffs, if_pos hpar]
      obtain ⟨m, hm⟩ : ∃ m, k + 1 = 2 * m := ⟨(k + 1) / 2, by omega⟩
      have hm2 : (k + 1) / 2 = m := by omega
      have hmpos : 0 < m := by omega
      have hrec := ih m (by omega) hmpos
      rw [hff, hm2, hm]
      constructor
      · obtain ⟨q, hq⟩ := hrec.1
        refine ⟨q, ?_⟩
        rw [pow_succ]
        conv_lhs => rw [hq]
        ring
      · intro hdvd
        apply hrec.2
        obtain ⟨q, hq2⟩ := hdvd
        refine ⟨q, ?_⟩
        rw [pow_succ] at hq2
        have he : 2 * m = 2 * (2 ^ (ffs m + 1) * q) := by
          rw [hq2]
          ring
        exact Nat.eq_of_mul_eq_mul_left (by omega) he
    · have hff : ffs (k + 1) = 0 := by
        rw [ffs, if_neg hpar]
      rw [hff]
      constructor
      · simp
      · intro hdvd
        have hpar2 : (k + 1) % 2 = 0 := by
          obtain ⟨q, hq⟩ := hdvd
          have he : (2 : Nat) ^ (0 + 1) = 2 := by norm_num
          rw [he] at hq
          omega
        exact hpar hpar2

lemma ffs_largest (n k : Nat) (hn : 0 < n) (hk : 2 ^ k ∣ n) : k ≤ ffs n := by
  by_contra hlt
  push_neg at hlt
  have hpow : (2 : Nat) ^ (ffs n + 1) ∣ 2 ^ k := pow_dvd_pow 2 (by omega)
  exact (ffs_spec n hn).2 (hpow.trans hk)

/-! ## Claim theorems: the synchronous decompression path -/

/-- C6: for every call to eh_decompress_page that reaches the polling loop
(device not suspended, slot not busy): if every status read within the timeout
window is PENDING the call returns -ETIME without recording latency; if
polling completes with a final status other than DECOMPRESSED the call records
latency and returns -EIO; if it completes with DECOMPRESSED the call records
latency and returns 0. -/
theorem c6_decompress_poll (read : Nat → DcmdStatus) (fuel : Nat) :
    ((∀ u, u < fuel → read u = DcmdStatus.pending) →
      eh_decompress_page false false read fuel
        = ⟨-ETIME, DecompressOutcome.timedOut, false⟩) ∧
    (∀ st, pollStatus read fuel 0 = some st → st ≠ DcmdStatus.decompressed →
      eh_decompress_page false false read fuel
        = ⟨-EIO_code, DecompressOutcome.hwError, true⟩) ∧
    (pollStatus read fuel 0 = some DcmdStatus.decompressed →
      eh_decompress_page false false read fuel
        = ⟨0, DecompressOutcome.ok, true⟩) := by
  refine ⟨?_, ?_, ?_⟩
  · intro hall
    have hn : pollStatus read fuel 0 = none := by
      apply pollStatus_all_pending read fuel 0
      intro u hu
      have := hall u hu
      rwa [Nat.zero_add]
    unfold eh_decompress_page
    simp [hn]
  · intro st hsome hne
    unfold eh_decompress_page
    simp [hsome, hne]
  · intro hsome
    unfold eh_decompress_page
    simp [hsome]

theorem c6_witness :
    (∀ u, u < 3 → (fun _ => DcmdStatus.pending) u = DcmdStatus.pending) ∧
    eh_decompress_page false false (fun _ => DcmdStatus.pending) 3
      = ⟨-ETIME, DecompressOutcome.timedOut, false⟩ ∧
    eh_decompress_page false false (fun _ => DcmdStatus.failCode 1) 3
      = ⟨-EIO_code, DecompressOutcome.hwError, true⟩ ∧
    eh_decompress_page false false (fun _ => DcmdStatus.decompressed) 3
      = ⟨0, DecompressOutcome.ok, true⟩ :=
  ⟨fun _ _ => rfl,
   (c6_decompress_poll (fun _ => DcmdStatus.pending) 3).1 (fun _ _ => rfl),
   (c6_decompress_poll (fun _ => DcmdStatus.failCode 1) 3).2.1
     (DcmdStatus.failCode 1) rfl (by decide),
   (c6_decompress_poll (fun _ => DcmdStatus.decompressed) 3).2.2 rfl⟩

/-- C7: eh_setup_dcmd copies the source into the bounce buffer if and only if
the natural alignment of the buffer address (the largest power of two dividing
it, here 2 ^ ffs addr) is below 64 bytes or the compressed size exceeds that
alignment; otherwise the buffer is referenced in place and the programmed
alignment is the natural alignment capped at PAGE_SIZE. -/
theorem c7_dcmd_alignment (compr_data compr_size : Nat) (hpos : 0 < compr_data) :
    (2 ^ ffs compr_data ∣ compr_data ∧
      ∀ k, 2 ^ k ∣ compr_data → k ≤ ffs compr_data) ∧
    ((eh_setup_dcmd compr_data compr_size).1 = true ↔
      (2 ^ ffs compr_data < 64 ∨ 2 ^ ffs compr_data < compr_size)) ∧
    ((eh_setup_dcmd compr_data compr_size).1 = true →
      (eh_setup_dcmd compr_data compr_size).2 = PAGE_SIZE) ∧
    ((eh_setup_dcmd compr_data compr_size).1 = false →
      (eh_setup_dcmd compr_data compr_size).2
        = min (2 ^ ffs compr_data) PAGE_SIZE) := by
  have hunf : eh_setup_dcmd compr_data compr_size
      = if 2 ^ ffs compr_data < 64 ∨ compr_size > 2 ^ ffs compr_data then
          (true, PAGE_SIZE)
        else (false, if PAGE_SIZE < 2 ^ ffs compr_data then PAGE_SIZE
          else 2 ^ ffs compr_data) := rfl
  refine ⟨⟨(ffs_spec _ hpos).1, fun k hk => ffs_largest _ k hpos hk⟩, ?_, ?_, ?_⟩
  · rw [hunf]
    by_cases hc : 2 ^ ffs compr_data < 64 ∨ compr_size > 2 ^ ffs compr_data
    · rw [if_pos hc]
      constructor
      · intro _
        rcases hc with hc | hc
        · exact Or.inl hc
        · exact Or.inr hc
      · intro _
        rfl
    · rw [if_neg hc]
      constructor
      · intro hx
        exact Bool.noConfusion hx
      · intro hx
        exfalso
        apply hc
        rcases hx with hx | hx
        · exact Or.inl hx
        · exact Or.inr hx
  · intro htrue
    rw [hunf] at htrue ⊢
    by_cases hc : 2 ^ ffs compr_data < 64 ∨ compr_size > 2 ^ ffs compr_data
    · rw [if_pos hc]
    · rw [if_neg hc] at htrue
      exact Bool.noConfusion htrue
  · intro hfalse
    rw [hunf] at hfalse ⊢
    by_cases hc : 2 ^ ffs compr_data < 64 ∨ compr_size > 2 ^ ffs compr_data
    · rw [if_pos hc] at hfalse
      exact Bool.noConfusion hfalse
    · rw [if_neg hc]
      show (if PAGE_SIZE < 2 ^ ffs compr_data then PAGE_SIZE
          else 2 ^ ffs compr_data) = min (2 ^ ffs compr_data) PAGE_SIZE
      rcases Nat.lt_or_ge PAGE_SIZE (2 ^ ffs compr_data) with h1 | h1
      · rw [if_pos h1, min_eq_right (le_of_lt h1)]
      · rw [if_neg (by omega), min_eq_left h1]

theorem c7_witness :
    0 < 192 ∧
    (2 ^ ffs 192 ∣ 192 ∧ ∀ k, 2 ^ k ∣ 192 → k ≤ ffs 192) ∧
    ((eh_setup_dcmd 192 50).1 = true ↔
      (2 ^ ffs 192 < 64 ∨ 2 ^ ffs 192 < 50)) ∧
    ((eh_setup_dcmd 192 50).1 = true → (eh_setup_dcmd 192 50).2 = PAGE_SIZE) ∧
    ((eh_setup_dcmd 192 50).1 = false →
      (eh_setup_dcmd 192 50).2 = min (2 ^ ffs 192) PAGE_SIZE) :=
  ⟨by decide, c7_dcmd_alignment 192 50 (by decide)⟩

/-! ## Claim theorems: descriptor completion processing -/

/-- C9 counterexample: for a descriptor reaped with status ZERO the callback
size argument is the descriptor compr_len field (here 7), not 0 as the claim
states; the data pointer is NULL. -/
theorem c9_counterexample :
    (eh_process_completed_descriptor 0 ⟨CompStatus.zero, 7, 0⟩ 5).args
      = ⟨CompStatus.zero, none, 7, 5⟩ ∧
    (eh_process_completed_descriptor 0 ⟨CompStatus.zero, 7, 0⟩ 5).args.size ≠ 0 := by
  exact ⟨rfl, by decide⟩

/-- C9 (amended): for a reaped descriptor with status ZERO or ABORT the
callback receives (status, NULL, compr_len, token) — the data pointer is NULL
but the size argument is the hardware-written compr_len field, not forced to
0 — while for COPIED or COMPRESSED it receives the per-slot compression
buffer (offset PAGE_SIZE / 2 when buf_sel = 2, else 0) and the
hardware-reported compressed size. -/
theorem c9_amended_callback_args (i : Nat) (desc : EhCompressDesc) (priv : Nat) :
    ((desc.status = CompStatus.zero ∨ desc.status = CompStatus.abort) →
      (eh_process_completed_descriptor i desc priv).args
        = ⟨desc.status, none, desc.compr_len, priv⟩) ∧
    ((desc.status = CompStatus.copied ∨ desc.status = CompStatus.compressed) →
      (eh_process_completed_descriptor i desc priv).args
        = ⟨desc.status, some (i, if desc.buf_sel = 2 then PAGE_SIZE / 2 else 0),
            desc.compr_len, priv⟩) := by
  obtain ⟨st, len, sel⟩ := desc
  constructor
  · rintro (h | h) <;> (cases h; rfl)
  · rintro (h | h) <;> (cases h; rfl)

theorem c9_amended_witness :
    ((CompStatus.abort = CompStatus.zero ∨ CompStatus.abort = CompStatus.abort) ∧
      (eh_process_completed_descriptor 3 ⟨CompStatus.abort, 9, 0⟩ 4).args
        = ⟨CompStatus.abort, none, 9, 4⟩) ∧
    (eh_process_completed_descriptor 3 ⟨CompStatus.compressed, 120, 2⟩ 4).args
      = ⟨CompStatus.compressed, some (3, PAGE_SIZE / 2), 120, 4⟩ :=
  ⟨⟨Or.inr rfl,
    (c9_amended_callback_args 3 ⟨CompStatus.abort, 9, 0⟩ 4).1 (Or.inr rfl)⟩,
   (c9_amended_callback_args 3 ⟨CompStatus.compressed, 120, 2⟩ 4).2 (Or.inr rfl)⟩

/-- A concrete ring for the C4 counterexample: the device reports slots 0 and
1 completed, but slot 0 still reads IDLE. -/
def c4ring : RingArrays :=
  { fifo := fun i => if i = 0 then ⟨CompStatus.idle, 0, 0⟩
      else if i = 1 then ⟨CompStatus.compressed, 100, 1⟩
      else ⟨CompStatus.idle, 0, 0⟩,
    completions := fun i => if i = 0 then 5 else if i = 1 then 6 else 0 }

/-- C4 counterexample: with an IDLE descriptor at a device-reported-complete
index the loop of eh_process_completions does not stop: it still processes the
following slot (two callbacks are issued) and returns 0, so eh_comp_thread
does not run the halt-recovery path for this condition. -/
theorem c4_counterexample :
    (eh_process_completions 4 c4ring 0 2).outs.length = 2 ∧
    (eh_process_completions 4 c4ring 0 2).ret = false ∧
    (eh_process_completed_descriptor 0 (c4ring.fifo 0)
        (c4ring.completions 0)).ret = false ∧
    (eh_process_completed_descriptor 0 (c4ring.fifo 0)
        (c4ring.completions 0)).dumped = true := by
  exact ⟨by decide, by decide, by decide, by decide⟩

/-- C4 (amended): when the reaper observes IDLE or PENDING at a
device-reported-complete index it dumps full register and descriptor state
and warns, delivers the callback with the observed raw status and a NULL
buffer, and returns 0 — so, unlike ERROR_HALTED, the completion loop does not
break and no halt recovery is triggered; processing continues with the next
slot. -/
theorem c4_amended_consistency_case (i : Nat) (desc : EhCompressDesc) (priv : Nat)
    (h : desc.status = CompStatus.idle ∨ desc.status = CompStatus.pending) :
    (eh_process_completed_descriptor i desc priv).dumped = true ∧
    (eh_process_completed_descriptor i desc priv).ret = false ∧
    (eh_process_completed_descriptor i desc priv).args
      = ⟨desc.status, none, desc.compr_len, priv⟩ ∧
    (∀ (N : Nat) (r : RingArrays) (idx n : Nat),
      (eh_process_completed_descriptor (idx % N) (r.fifo (idx % N))
          (r.completions (idx % N))).ret = false →
      (processSlots N r idx (n + 1)).outs
        = eh_process_completed_descriptor (idx % N) (r.fifo (idx % N))
            (r.completions (idx % N))
          :: (processSlots N (reapRingSlot r (idx % N)) ((idx + 1) % (2 * N)) n).outs) := by
  refine ⟨?_, ?_, ?_, ?_⟩
  · obtain ⟨st, len, sel⟩ := desc
    rcases h with h | h <;> (cases h; rfl)
  · obtain ⟨st, len, sel⟩ := desc
    rcases h with h | h <;> (cases h; rfl)
  · obtain ⟨st, len, sel⟩ := desc
    rcases h with h | h <;> (cases h; rfl)
  · intro N r idx n hret
    show (if (eh_process_completed_descriptor (idx % N) (r.fifo (idx % N))
            (r.completions (idx % N))).ret = true
        then (⟨[eh_process_completed_descriptor (idx % N) (r.fifo (idx % N))
            (r.completions (idx % N))], reapRingSlot r (idx % N),
            (idx + 1) % (2 * N), true⟩ : ProcessResult)
        else ⟨eh_process_completed_descriptor (idx % N) (r.fifo (idx % N))
              (r.completions (idx % N))
            :: (processSlots N (reapRingSlot r (idx % N)) ((idx + 1) % (2 * N)) n).outs,
            (processSlots N (reapRingSlot r (idx % N)) ((idx + 1) % (2 * N)) n).ring,
            (processSlots N (reapRingSlot r (idx % N)) ((idx + 1) % (2 * N)) n).complete_index,
            (processSlots N (reapRingSlot r (idx % N)) ((idx + 1) % (2 * N)) n).ret⟩).outs
      = _
    rw [if_neg (by rw [hret]; exact Bool.noConfusion)]

theorem c4_amended_witness :
    (CompStatus.idle = CompStatus.idle ∨ CompStatus.idle = CompStatus.pending) ∧
    (eh_process_completed_descriptor 2 ⟨CompStatus.idle, 3, 0⟩ 8).dumped = true ∧
    (eh_process_completed_descriptor 2 ⟨CompStatus.idle, 3, 0⟩ 8).ret = false ∧
    (eh_process_completed_descriptor 2 ⟨CompStatus.idle, 3, 0⟩ 8).args
      = ⟨CompStatus.idle, none, 3, 8⟩ ∧
    (∀ (N : Nat) (r : RingArrays) (idx n : Nat),
      (eh_process_completed_descriptor (idx % N) (r.fifo (idx % N))
          (r.completions (idx % N))).ret = false →
      (processSlots N r idx (n + 1)).outs
        = eh_process_completed_descriptor (idx % N) (r.fifo (idx % N))
            (r.completions (idx % N))
          :: (processSlots N (reapRingSlot r (idx % N)) ((idx + 1) % (2 * N)) n).outs) :=
  ⟨Or.inl rfl,
   (c4_amended_consistency_case 2 ⟨CompStatus.idle, 3, 0⟩ 8 (Or.inl rfl)).1,
   (c4_amended_consistency_case 2 ⟨CompStatus.idle, 3, 0⟩ 8 (Or.inl rfl)).2.1,
   (c4_amended_consistency_case 2 ⟨CompStatus.idle, 3, 0⟩ 8 (Or.inl rfl)).2.2.1,
   (c4_amended_consistency_case 2 ⟨CompStatus.idle, 3, 0⟩ 8 (Or.inl rfl)).2.2.2⟩

/-! ## Claim theorems: suspend -/

/-- C8: eh_suspend acquires the ring producer lock and then every
decompression slot lock in index order and releases them in reverse order; if
any compression is in flight (nr_request > 0) or any decompression slot is
busy it returns -EBUSY with no device register written and the state
unchanged; otherwise it masks the three interrupt registers, rewrites
CDESC_CTRL with the compress-enable bit cleared, and sets suspended. -/
lemma eh_suspend_eq (s : EhState) :
    eh_suspend s
      = (if 0 < s.nr_request then
          (⟨-EBUSY, [],
            (LockEvt.acqFifoProd
              :: (List.range s.decompr_cmd_count).map LockEvt.acqDecompr)
            ++ (((List.range s.decompr_cmd_count).map LockEvt.relDecompr).reverse
              ++ [LockEvt.relFifoProd])⟩, s)
        else if (List.range s.decompr_cmd_count).any (fun i => s.decompr_busy i) then
          (⟨-EBUSY, [],
            (LockEvt.acqFifoProd
              :: (List.range s.decompr_cmd_count).map LockEvt.acqDecompr)
            ++ (((List.range s.decompr_cmd_count).map LockEvt.relDecompr).reverse
              ++ [LockEvt.relFifoProd])⟩, s)
        else
          (⟨0, [RegName.intrpMaskError, RegName.intrpMaskCmp,
              RegName.intrpMaskDcmp, RegName.cdescCtrl],
            (LockEvt.acqFifoProd
              :: (List.range s.decompr_cmd_count).map LockEvt.acqDecompr)
            ++ (((List.range s.decompr_cmd_count).map LockEvt.relDecompr).reverse
              ++ [LockEvt.relFifoProd])⟩,
           { s with suspended := true })) := rfl

theorem c8_suspend_protocol (s : EhState) :
    ((eh_suspend s).1.lock_trace
      = (LockEvt.acqFifoProd
          :: (List.range s.decompr_cmd_count).map LockEvt.acqDecompr)
        ++ (((List.range s.decompr_cmd_count).map LockEvt.relDecompr).reverse
          ++ [LockEvt.relFifoProd])) ∧
    ((0 < s.nr_request ∨
        (List.range s.decompr_cmd_count).any (fun i => s.decompr_busy i) = true) →
      (eh_suspend s).1.ret = -EBUSY ∧ (eh_suspend s).1.reg_writes = [] ∧
        (eh_suspend s).2 = s) ∧
    (s.nr_request = 0 →
      (List.range s.decompr_cmd_count).any (fun i => s.decompr_busy i) = false →
      (eh_suspend s).1.ret = 0 ∧
        (eh_suspend s).1.reg_writes
          = [RegName.intrpMaskError, RegName.intrpMaskCmp,
             RegName.intrpMaskDcmp, RegName.cdescCtrl] ∧
        (eh_suspend s).2 = { s with suspended := true }) := by
  have hunf := eh_suspend_eq s
  refine ⟨?_, ?_, ?_⟩
  · rw [hunf]
    split_ifs <;> rfl
  · intro hbusy
    rw [hunf]
    by_cases h1 : 0 < s.nr_request
    · rw [if_pos h1]
      exact ⟨rfl, rfl, rfl⟩
    · have h2 : (List.range s.decompr_cmd_count).any
          (fun i => s.decompr_busy i) = true := by
        rcases hbusy with hb | hb
        · exact absurd hb h1
        · exact hb
      rw [if_neg h1, if_pos h2]
      exact ⟨rfl, rfl, rfl⟩
  · intro h1 h2
    rw [hunf, if_neg (by omega : ¬ 0 < s.nr_request),
      if_neg (show ¬ ((List.range s.decompr_cmd_count).any
          (fun i => s.decompr_busy i) = true) by
        intro hx
        rw [h2] at hx
        exact Bool.noConfusion hx)]
    exact ⟨rfl, rfl, rfl⟩

theorem c8_witness :
    (0 < ({ initState 4 2 with nr_request := 1 } : EhState).nr_request ∨
      (List.range ({ initState 4 2 with nr_request := 1 } : EhState).decompr_cmd_count).any
        (fun i => ({ initState 4 2 with nr_request := 1 } : EhState).decompr_busy i) = true) ∧
    (eh_suspend { initState 4 2 with nr_request := 1 }).1.ret = -EBUSY ∧
    (eh_suspend { initState 4 2 with nr_request := 1 }).1.reg_writes = [] ∧
    (eh_suspend (initState 4 2)).1.ret = 0 ∧
    (eh_suspend (initState 4 2)).1.reg_writes
      = [RegName.intrpMaskError, RegName.intrpMaskCmp, RegName.intrpMaskDcmp,
         RegName.cdescCtrl] :=
  ⟨Or.inl (by decide),
   ((c8_suspend_protocol _).2.1 (Or.inl (by decide))).1,
   ((c8_suspend_protocol _).2.1 (Or.inl (by decide))).2.1,
   ((c8_suspend_protocol _).2.2 (by decide) (by decide)).1,
   ((c8_suspend_protocol _).2.2 (by decide) (by decide)).2.1⟩

/-! ## Claim theorems: the compression ring -/

/-- C1: in every reachable state of the ring, pending =
(write_index - complete_index) mod 2N lies in [0, N]; an admission attempt
made with pending = N and the device not suspended takes the congestion path
(returning to try_again) and leaves the state untouched; and an attempt that
does admit writes a descriptor slot that is not PENDING (it is IDLE), so no
PENDING descriptor is ever overwritten. -/
theorem c1_pending_bounded_and_no_overwrite (N M : Nat) (s : EhState)
    (hN : 2 ≤ N) (hr : Reach N M s) :
    pendingCount s ≤ s.fifo_size ∧
    (∀ priv, s.suspended = false → pendingCount s = s.fifo_size →
      (eh_compress_page_attempt s priv).attempt = CompressAttempt.congested ∧
      (eh_compress_page_attempt s priv).state = s) ∧
    (∀ priv,
      (eh_compress_page_attempt s priv).attempt = CompressAttempt.admitted →
      s.fifoStatus (s.write_index % s.fifo_size) ≠ CompStatus.pending) := by
  have h := reach_inv N M s hN hr
  have hN2 := h.size_pos
  have hNpos : 0 < s.fifo_size := by omega
  have hclt := h.c_lt
  have hwlt := h.w_lt
  have hple := h.pending_le
  rw [pendingCount_def] at hple
  have hps : colorDist s.fifo_size s.complete_index
      ((s.write_index + 1) % (2 * s.fifo_size))
      = colorDist s.fifo_size s.complete_index s.write_index + 1 :=
    colorDist_succ_right _ _ _ hclt hwlt (by omega)
  refine ⟨h.pending_le, ?_, ?_⟩
  · intro priv hsusp hfull
    rw [pendingCount_def] at hfull
    rcases compress_attempt_cases s priv with ⟨hx, _⟩ | ⟨_, _, heq⟩ | ⟨_, hadm, heq⟩
    · rw [hsusp] at hx
      exact Bool.noConfusion hx
    · exact ⟨by rw [heq], by rw [heq]⟩
    · rw [hps, hfull] at hadm
      omega
  · intro priv hg
    rcases compress_attempt_cases s priv with ⟨_, heq⟩ | ⟨_, _, heq⟩ | ⟨_, hadm, heq⟩
    · rw [heq] at hg
      exact absurd hg (by simp)
    · rw [heq] at hg
      exact absurd hg (by simp)
    · rw [hps] at hadm
      have hwm := masked_window s.fifo_size s.complete_index s.write_index
        hNpos hclt hwlt
      have hidle : s.fifoStatus (s.write_index % s.fifo_size)
          = CompStatus.idle := by
        apply h.outside_idle _ (Nat.mod_lt _ hNpos)
        intro j hj he
        rw [pendingCount_def] at hj
        rw [hwm] at he
        have := masked_inj _ _ _ _ (by omega) (by omega) he
        omega
      rw [hidle]
      intro hcontra
      exact CompStatus.noConfusion hcontra

theorem c1_witness :
    2 ≤ 4 ∧ Reach 4 2 (initState 4 2) ∧
    (pendingCount (initState 4 2) ≤ (initState 4 2).fifo_size ∧
      (∀ priv, (initState 4 2).suspended = false →
        pendingCount (initState 4 2) = (initState 4 2).fifo_size →
        (eh_compress_page_attempt (initState 4 2) priv).attempt
          = CompressAttempt.congested ∧
        (eh_compress_page_attempt (initState 4 2) priv).state = initState 4 2) ∧
      (∀ priv,
        (eh_compress_page_attempt (initState 4 2) priv).attempt
          = CompressAttempt.admitted →
        (initState 4 2).fifoStatus
            ((initState 4 2).write_index % (initState 4 2).fifo_size)
          ≠ CompStatus.pending)) :=
  ⟨by decide, ⟨by decide, Relation.ReflTransGen.refl⟩,
   c1_pending_bounded_and_no_overwrite 4 2 (initState 4 2) (by decide)
     ⟨by decide, Relation.ReflTransGen.refl⟩⟩

/-! ## Concrete executions: a halt with a full ring, and the spec scenario -/

/-- Ring of size 4: submit tokens 10..13, the device halts on descriptor 0,
the reaper processes it (callback and break), token 14 is admitted into the
freed slot before the thread reaches its error path, then halt recovery runs
with the ring again full. -/
def exS0 : EhState := initState 4 1

def exS1 : EhState := (eh_compress_page_attempt exS0 10).state

def exS2 : EhState := (eh_compress_page_attempt exS1 11).state

def exS3 : EhState := (eh_compress_page_attempt exS2 12).state

def exS4 : EhState := (eh_compress_page_attempt exS3 13).state

def exS5 : EhState := hwCompleteStep exS4 CompStatus.errorHalted

def exS6 : EhState := eh_reap_one exS5

def exS7 : EhState := (eh_compress_page_attempt exS6 14).state

def exS8 : EhState := eh_halt_recovery exS7

lemma exS7_rtg : Relation.ReflTransGen Step exS0 exS7 := by
  have h1 : Step exS0 exS1 := Step.submit exS0 10 (by decide)
  have h2 : Step exS1 exS2 := Step.submit exS1 11 (by decide)
  have h3 : Step exS2 exS3 := Step.submit exS2 12 (by decide)
  have h4 : Step exS3 exS4 := Step.submit exS3 13 (by decide)
  have h5 : Step exS4 exS5 :=
    Step.hwComplete exS4 CompStatus.errorHalted (by decide) (by decide)
      (by decide) (by decide)
  have h6 : Step exS5 exS6 := Step.reap exS5 (by decide) (by decide) (by decide)
  have h7 : Step exS6 exS7 := Step.submit exS6 14 (by decide)
  exact ((((((Relation.ReflTransGen.refl.tail h1).tail h2).tail h3).tail
    h4).tail h5).tail h6).tail h7

lemma exS8_rtg : Relation.ReflTransGen Step exS0 exS8 :=
  exS7_rtg.tail (Step.haltRecover exS7 (by decide) (by decide))

/-- C2 counterexample: a reachable state in which the reaper thread has
stopped after halt recovery while tokens 11..14 were submitted but never
delivered to the callback (the masked-index abort loop ran zero iterations
because the ring was full again), so the callback is not invoked exactly once
per submitted item. -/
theorem c2_counterexample :
    Reach 4 1 exS8 ∧ exS8.threadStopped = true ∧
    exS8.submitted = [10, 11, 12, 13, 14] ∧ exS8.delivered = [10] :=
  ⟨⟨by decide, exS8_rtg⟩, by decide, by decide, by decide⟩

/-- C2 (amended): completions are delivered at most once and in submission
order: in every reachable state the delivered-token trace is a prefix of the
submitted-token trace; while the reaper thread runs, the submitted trace is
exactly the delivered trace followed by the in-flight window, so whenever the
ring drains (pending = 0) every submitted item has been delivered exactly
once; and each reap iteration delivers exactly the oldest in-flight token
while advancing complete_index by one in color space.  (After ERROR_HALTED,
items the masked-index abort loop skips are never delivered: see the
counterexample.) -/
theorem c2_amended_delivery_order (N M : Nat) (s : EhState)
    (hN : 2 ≤ N) (hr : Reach N M s) :
    (∃ rest, s.submitted = s.delivered ++ rest) ∧
    (s.threadStopped = false → s.submitted = s.delivered ++ windowTokens s) ∧
    (s.threadStopped = false → pendingCount s = 0 → s.submitted = s.delivered) ∧
    ((eh_reap_one s).delivered
        = s.delivered ++ [s.completions (s.complete_index % s.fifo_size)] ∧
      (eh_reap_one s).complete_index
        = (s.complete_index + 1) % (2 * s.fifo_size)) := by
  have h := reach_inv N M s hN hr
  refine ⟨h.trace_pre, h.trace_eq, ?_, rfl, rfl⟩
  intro hst hp
  have ht := h.trace_eq hst
  have hw0 : windowTokens s = [] := by
    simp [windowTokens_def, hp]
  rw [ht, hw0, List.append_nil]

theorem c2_witness :
    2 ≤ 4 ∧ Reach 4 1 (initState 4 1) ∧
    ((∃ rest, (initState 4 1).submitted = (initState 4 1).delivered ++ rest) ∧
      ((initState 4 1).threadStopped = false →
        (initState 4 1).submitted
          = (initState 4 1).delivered ++ windowTokens (initState 4 1)) ∧
      ((initState 4 1).threadStopped = false →
        pendingCount (initState 4 1) = 0 →
        (initState 4 1).submitted = (initState 4 1).delivered) ∧
      ((eh_reap_one (initState 4 1)).delivered
          = (initState 4 1).delivered
            ++ [(initState 4 1).completions
              ((initState 4 1).complete_index % (initState 4 1).fifo_size)] ∧
        (eh_reap_one (initState 4 1)).complete_index
          = ((initState 4 1).complete_index + 1)
            % (2 * (initState 4 1).fifo_size))) :=
  ⟨by decide, ⟨by decide, Relation.ReflTransGen.refl⟩,
   c2_amended_delivery_order 4 1 (initState 4 1) (by decide)
     ⟨by decide, Relation.ReflTransGen.refl⟩⟩

/-- C3 counterexample: in a reachable pre-abort state with the ring full
again (4 descriptors between the device-reported completion index and
write_index in color space), eh_abort_incomplete_descriptors synthesizes no
completion at all, because its loop compares masked (mod N) indices that
coincide. -/
theorem c3_counterexample :
    Reach 4 1 exS7 ∧ exS7.reapSawHalt = true ∧
    colorDist 4 exS7.hw_complete_index exS7.write_index = 4 ∧
    (eh_abort_incomplete_descriptors exS7).1 = [] :=
  ⟨⟨by decide, exS7_rtg⟩, by decide, by decide, by decide⟩

/-- The spec section 8 halt scenario: four submissions (tokens 20..23), the
device completes slots 0 and 1 (COPIED) and halts on slot 2; the reaper
delivers 20, 21, then the ERROR_HALTED callback for 22, and halt recovery
synthesizes the completion of 23 and stops the thread. -/
def scn4 : EhState :=
  (eh_compress_page_attempt ((eh_compress_page_attempt
    ((eh_compress_page_attempt ((eh_compress_page_attempt
      (initState 4 1) 20).state) 21).state) 22).state) 23).state

def scn5 : EhState := hwCompleteStep scn4 CompStatus.copied

def scn6 : EhState := hwCompleteStep scn5 CompStatus.copied

def scn7 : EhState := eh_reap_one scn6

def scn8 : EhState := eh_reap_one scn7

def scn9 : EhState := hwCompleteStep scn8 CompStatus.errorHalted

def scn10 : EhState := eh_reap_one scn9

def scn11 : EhState := eh_halt_recovery scn10

lemma scn10_rtg : Relation.ReflTransGen Step (initState 4 1) scn10 := by
  have h1 : Step (initState 4 1)
      ((eh_compress_page_attempt (initState 4 1) 20).state) :=
    Step.submit _ 20 (by decide)
  have h2 : Step ((eh_compress_page_attempt (initState 4 1) 20).state)
      ((eh_compress_page_attempt
        ((eh_compress_page_attempt (initState 4 1) 20).state) 21).state) :=
    Step.submit _ 21 (by decide)
  have h3 : Step ((eh_compress_page_attempt ((eh_compress_page_attempt
        (initState 4 1) 20).state) 21).state)
      ((eh_compress_page_attempt ((eh_compress_page_attempt
        ((eh_compress_page_attempt (initState 4 1) 20).state) 21).state)
        22).state) :=
    Step.submit _ 22 (by decide)
  have h4 : Step ((eh_compress_page_attempt ((eh_compress_page_attempt
        ((eh_compress_page_attempt (initState 4 1) 20).state) 21).state)
        22).state) scn4 :=
    Step.submit _ 23 (by decide)
  have h5 : Step scn4 scn5 :=
    Step.hwComplete scn4 CompStatus.copied (by decide) (by decide) (by decide)
      (by decide)
  have h6 : Step scn5 scn6 :=
    Step.hwComplete scn5 CompStatus.copied (by decide) (by decide) (by decide)
      (by decide)
  have h7 : Step scn6 scn7 := Step.reap scn6 (by decide) (by decide) (by decide)
  have h8 : Step scn7 scn8 := Step.reap scn7 (by decide) (by decide) (by decide)
  have h9 : Step scn8 scn9 :=
    Step.hwComplete scn8 CompStatus.errorHalted (by decide) (by decide)
      (by decide) (by decide)
  have h10 : Step scn9 scn10 :=
    Step.reap scn9 (by decide) (by decide) (by decide)
  exact (((((((((Relation.ReflTransGen.refl.tail h1).tail h2).tail h3).tail
    h4).tail h5).tail h6).tail h7).tail h8).tail h9).tail h10

/-- C3 (amended): eh_abort_incomplete_descriptors synthesizes an
(ERROR_HALTED, NULL, 0, token) completion for each of the
(masked_write_index - masked device index) mod fifo_size slots starting at
the masked device-reported index — the in-flight count, except that a ring
that is full again at abort time gets none; after the abort the reaper thread
stays stopped and no completion is ever delivered again; in the spec halt
scenario (4 in flight, ERROR_HALTED on slot 2) the slot-2 callback comes from
the normal reap path and slot 3 is synthesized, after which the thread is
stopped. -/
theorem c3_amended_halt_recovery :
    (∀ s : EhState, 0 < s.fifo_size →
      (eh_abort_incomplete_descriptors s).1
        = (List.range ((s.write_index % s.fifo_size + s.fifo_size
              - s.hw_complete_index % s.fifo_size) % s.fifo_size)).map
            (fun k => ⟨CompStatus.errorHalted, none, 0,
              s.completions ((s.hw_complete_index % s.fifo_size + k)
                % s.fifo_size)⟩)) ∧
    (∀ s s' : EhState, s.threadStopped = true →
      Relation.ReflTransGen Step s s' →
      s'.delivered = s.delivered ∧ s'.threadStopped = true) ∧
    (Reach 4 1 scn10 ∧ Reach 4 1 scn11 ∧
      scn11.delivered = [20, 21, 22, 23] ∧ scn11.threadStopped = true ∧
      (eh_abort_incomplete_descriptors scn10).1
        = [⟨CompStatus.errorHalted, none, 0, 23⟩]) := by
  refine ⟨?_, ?_, ?_, ?_, ?_, ?_, ?_⟩
  · intro s hN
    exact abortLoop_outs s.fifo_size hN _ (le_of_lt (Nat.mod_lt _ hN)) _
      (Nat.mod_lt _ hN) s.completions
  · intro s s' hst hr
    exact stopped_frozen s s' hr hst
  · exact ⟨by decide, scn10_rtg⟩
  · exact ⟨by decide,
      scn10_rtg.tail (Step.haltRecover scn10 (by decide) (by decide))⟩
  · decide
  · decide
  · decide

theorem c3_witness :
    0 < scn10.fifo_size ∧
    (eh_abort_incomplete_descriptors scn10).1
      = (List.range ((scn10.write_index % scn10.fifo_size + scn10.fifo_size
            - scn10.hw_complete_index % scn10.fifo_size) % scn10.fifo_size)).map
          (fun k => ⟨CompStatus.errorHalted, none, 0,
            scn10.completions ((scn10.hw_complete_index % scn10.fifo_size + k)
              % scn10.fifo_size)⟩) ∧
    scn11.threadStopped = true ∧ scn11.delivered = scn11.delivered :=
  ⟨by decide, c3_amended_halt_recovery.1 scn10 (by decide),
   (c3_amended_halt_recovery.2.1 scn11 scn11 (by decide)
     Relation.ReflTransGen.refl).2,
   (c3_amended_halt_recovery.2.1 scn11 scn11 (by decide)
     Relation.ReflTransGen.refl).1⟩

/-! ## Claim theorems: suspended submission and the decompression busy flag -/

/-- A reachable suspended state: eh_suspend succeeds on the freshly
initialized device. -/
def suspReached : EhState := (eh_suspend (initState 4 2)).2

lemma suspReached_rtg : Relation.ReflTransGen Step (initState 4 2) suspReached :=
  Relation.ReflTransGen.refl.tail (Step.suspend (initState 4 2))

/-- C5 counterexample: in a reachable suspended state, eh_compress_page
returns -EBUSY — exactly the errno the driver also uses for a busy
decompression slot — so the suspended failure is not a distinct Suspended
error distinguishable from Busy. -/
theorem c5_counterexample :
    Reach 4 2 suspReached ∧ suspReached.suspended = true ∧
    (eh_compress_page_attempt suspReached 7).ret = -EBUSY ∧
    (eh_decompress_page false true (fun _ => DcmdStatus.decompressed) 1).ret
      = -EBUSY :=
  ⟨⟨by decide, suspReached_rtg⟩, by decide, by decide, by decide⟩

/-- C5 (amended): every admission attempt made while the device is suspended
fails immediately with -EBUSY — the same errno the driver uses for Busy, not
a distinct Suspended code — leaving the state unchanged (nothing is queued);
since the congestion-wait loop re-runs the admission attempt from try_again,
a producer waiting on a full ring likewise gets -EBUSY on its first retry
after the device suspends, and the error always surfaces to the caller. -/
theorem c5_amended_suspended_submit (s : EhState) (priv : Nat)
    (hs : s.suspended = true) :
    (eh_compress_page_attempt s priv).attempt = CompressAttempt.suspendedBusy ∧
    (eh_compress_page_attempt s priv).ret = -EBUSY ∧
    (eh_compress_page_attempt s priv).state = s := by
  rcases compress_attempt_cases s priv with ⟨_, heq⟩ | ⟨hx, _, _⟩ | ⟨hx, _, _⟩
  · exact ⟨by rw [heq], by rw [heq], by rw [heq]⟩
  · rw [hs] at hx
    exact Bool.noConfusion hx
  · rw [hs] at hx
    exact Bool.noConfusion hx

theorem c5_witness :
    suspReached.suspended = true ∧
    ((eh_compress_page_attempt suspReached 7).attempt
        = CompressAttempt.suspendedBusy ∧
      (eh_compress_page_attempt suspReached 7).ret = -EBUSY ∧
      (eh_compress_page_attempt suspReached 7).state = suspReached) :=
  ⟨by decide, c5_amended_suspended_submit suspReached 7 (by decide)⟩

lemma decompress_not_busy_branch (suspended : Bool) (read : Nat → DcmdStatus)
    (fuel : Nat) :
    (eh_decompress_page suspended false read fuel).outcome
      ≠ DecompressOutcome.slotBusy := by
  unfold eh_decompress_page
  cases suspended
  · simp only [Bool.false_eq_true, if_false]
    cases hpoll : pollStatus read fuel 0 with
    | none => simp
    | some st =>
      by_cases hst : st = DcmdStatus.decompressed
      · simp [hst]
      · simp [hst]
  · simp

/-- C10: no operation of the module ever sets a decompression busy flag:
every machine step preserves decompr_busy, which eh_init leaves all-false
(kzalloc), so in every reachable state every flag is false; consequently the
-EBUSY busy branch of eh_decompress_page is unreachable (its outcome is never
slotBusy), and eh_suspend can refuse only because of in-flight compression
(nr_request > 0), never because of the decompression busy check. -/
theorem c10_decompr_busy_never_set (N M : Nat) (s : EhState)
    (hr : Reach N M s) :
    (∀ i, s.decompr_busy i = false) ∧
    (∀ s', Step s s' → ∀ i, s'.decompr_busy i = false) ∧
    (∀ (idx : Nat) (read : Nat → DcmdStatus) (fuel : Nat),
      (eh_decompress_page s.suspended (s.decompr_busy idx) read fuel).outcome
        ≠ DecompressOutcome.slotBusy) ∧
    ((eh_suspend s).1.ret = -EBUSY → 0 < s.nr_request) := by
  have hbusy := reach_decompr_busy N M s hr
  refine ⟨hbusy, ?_, ?_, ?_⟩
  · intro s' hstep i
    rw [(step_decompr s s' hstep).1]
    exact hbusy i
  · intro idx read fuel
    rw [hbusy idx]
    exact decompress_not_busy_branch s.suspended read fuel
  · intro hret
    by_cases h1 : 0 < s.nr_request
    · exact h1
    · exfalso
      have hany : (List.range s.decompr_cmd_count).any
          (fun i => s.decompr_busy i) = false := by
        rw [List.any_eq_false]
        intro x _
        rw [hbusy x]
        exact Bool.noConfusion
      have hz : (eh_suspend s).1.ret = 0 := by
        rw [eh_suspend_eq s, if_neg (by omega : ¬ 0 < s.nr_request),
          if_neg (show ¬ ((List.range s.decompr_cmd_count).any
              (fun i => s.decompr_busy i) = true) by
            intro hx
            rw [hany] at hx
            exact Bool.noConfusion hx)]
      rw [hz] at hret
      norm_num [EBUSY] at hret

theorem c10_witness :
    Reach 4 2 (initState 4 2) ∧
    ((∀ i, (initState 4 2).decompr_busy i = false) ∧
      (∀ s', Step (initState 4 2) s' → ∀ i, s'.decompr_busy i = false) ∧
      (∀ (idx : Nat) (read : Nat → DcmdStatus) (fuel : Nat),
        (eh_decompress_page (initState 4 2).suspended
            ((initState 4 2).decompr_busy idx) read fuel).outcome
          ≠ DecompressOutcome.slotBusy) ∧
      ((eh_suspend (initState 4 2)).1.ret = -EBUSY →
        0 < (initState 4 2).nr_request)) :=
  ⟨⟨by decide, Relation.ReflTransGen.refl⟩,
   c10_decompr_busy_never_set 4 2 (initState 4 2)
     ⟨by decide, Relation.ReflTransGen.refl⟩⟩

end EH
